import Mathlib

/-!
Verification development for the symmetry-exploiting mesh and influence-matrix
assembly module of capytaine (`capytaine/symmetries.py`).

Shallow embedding conventions:
* Leaf meshes from the external mesh library are lists of panels over an
  abstract panel type `ρ`; the external geometric operations (mirror across a
  plane, translation, rotation about the vertical axis) are abstract functions
  on panels, passed as parameters.
* Rotation angles are represented as rational fractions of a full turn:
  the fraction `q : ℚ` stands for the angle `2·π·q` radians in the source.
* Floating point numbers are modelled by exact rationals; `numpy.allclose`
  is modelled with its documented default tolerances (atol 1e-8, rtol 1e-5).
* Python object identity (`mesh1 is mesh2`) is modelled by an allocator tag
  `ident : Nat` carried by every `AxialSymmetry` node (the only class whose
  identity the code inspects); two distinct runtime objects carry distinct
  tags, which the correctness theorems assume as an explicit heap hypothesis.
* `assert` failures (the only error channel of the module) are modelled by
  constructor functions returning `Option`, `none` standing for the raise.
-/

/-- A 3-component vector of exact rationals, modelling a `numpy` array of
shape `(3,)` as used for translation vectors and axis points. -/
structure Vec3 where
  x : ℚ
  y : ℚ
  z : ℚ
deriving DecidableEq

/-- Model of `meshmagick.geometry.Plane`: a normal vector and a scalar offset.
Plane equality in the dispatcher is modelled as equality of these parameters. -/
structure MPlane where
  normal : Vec3
  c : ℚ
deriving DecidableEq

def vzero : Vec3 := ⟨0, 0, 0⟩

def vadd (u v : Vec3) : Vec3 := ⟨u.x + v.x, u.y + v.y, u.z + v.z⟩

def vneg (v : Vec3) : Vec3 := ⟨-v.x, -v.y, -v.z⟩

/-- `i * translation` for a natural repetition index `i`. -/
def vsmul (n : ℕ) (v : Vec3) : Vec3 := ⟨n * v.x, n * v.y, n * v.z⟩

/-- Model of `numpy.isclose` on scalars with the default tolerances
`atol = 1e-8`, `rtol = 1e-5`. -/
def approxClose (a b : ℚ) : Bool := decide (|a - b| ≤ 1 / 100000000 + |b| / 100000)

/-- Model of `numpy.allclose` on 3-vectors. -/
def vecClose (u v : Vec3) : Bool :=
  approxClose u.x v.x && approxClose u.y v.y && approxClose u.z v.z

/-- The runtime shape of a mesh object, as the dispatcher sees it:
a plain leaf `Mesh` (a list of panels over the abstract panel type `ρ`),
a plain `CollectionOfMeshes`, or one of the three symmetric classes.
`ReflectionSymmetry` always holds exactly two halves; `TranslationalSymmetry`
and `AxialSymmetry` hold a first slice and the list of its transformed
copies (their submesh list is `first :: rest`).  `AxialSymmetry` carries the
allocator tag `ident` modelling Python object identity. -/
inductive MeshTree (ρ : Type) : Type where
  | leaf (panels : List ρ)
  | coll (subs : List (MeshTree ρ))
  | reflNode (plane : MPlane) (half otherHalf : MeshTree ρ)
  | translNode (translation : Vec3) (first : MeshTree ρ) (rest : List (MeshTree ρ))
  | axialNode (ident : ℕ) (axisPoint : Vec3) (first : MeshTree ρ) (rest : List (MeshTree ρ))

namespace MeshTree

variable {ρ : Type}

mutual
/-- Apply a panel-level geometric transformation pointwise to a whole mesh
tree (model of `copy()` followed by `mirror`/`translate`/`rotate_z`, which
act on every sub-mesh of a collection). -/
def treeMap (f : ρ → ρ) : MeshTree ρ → MeshTree ρ
  | .leaf ps => .leaf (ps.map f)
  | .coll subs => .coll (treeMapL f subs)
  | .reflNode p h o => .reflNode p (treeMap f h) (treeMap f o)
  | .translNode t s rest => .translNode t (treeMap f s) (treeMapL f rest)
  | .axialNode i pt s rest => .axialNode i pt (treeMap f s) (treeMapL f rest)

/-- `treeMap` on every element of a list of mesh trees. -/
def treeMapL (f : ρ → ρ) : List (MeshTree ρ) → List (MeshTree ρ)
  | [] => []
  | t :: ts => treeMap f t :: treeMapL f ts
end

mutual
/-- All panels of a mesh tree, in sub-mesh order (the panel order of the
merged mesh, which fixes the row/column order of influence matrices). -/
def panels : MeshTree ρ → List ρ
  | .leaf ps => ps
  | .coll subs => panelsL subs
  | .reflNode _ h o => panels h ++ panels o
  | .translNode _ s rest => panels s ++ panelsL rest
  | .axialNode _ _ s rest => panels s ++ panelsL rest

/-- Concatenated panels of a list of mesh trees. -/
def panelsL : List (MeshTree ρ) → List ρ
  | [] => []
  | t :: ts => panels t ++ panelsL ts
end

/-- The `submeshes` attribute: children of a composite, `[]` for a leaf mesh. -/
def submeshesOf : MeshTree ρ → List (MeshTree ρ)
  | .leaf _ => []
  | .coll subs => subs
  | .reflNode _ h o => [h, o]
  | .translNode _ s rest => s :: rest
  | .axialNode _ _ s rest => s :: rest

mutual
/-- All subtrees of a mesh tree, the tree itself included. -/
def subtreesList : MeshTree ρ → List (MeshTree ρ)
  | .leaf ps => [.leaf ps]
  | .coll subs => .coll subs :: subtreesListL subs
  | .reflNode p h o => .reflNode p h o :: (subtreesList h ++ subtreesList o)
  | .translNode t s rest => .translNode t s rest :: (subtreesList s ++ subtreesListL rest)
  | .axialNode i pt s rest => .axialNode i pt s rest :: (subtreesList s ++ subtreesListL rest)

/-- Concatenated subtrees of a list of mesh trees. -/
def subtreesListL : List (MeshTree ρ) → List (MeshTree ρ)
  | [] => []
  | t :: ts => subtreesList t ++ subtreesListL ts
end

/-- The allocator tag of an `AxialSymmetry` object, `none` for anything else. -/
def identOf : MeshTree ρ → Option ℕ
  | .axialNode i _ _ _ => some i
  | _ => none

/-- The `translation` attribute of a `TranslationalSymmetry`, `none` otherwise. -/
def translVecOf : MeshTree ρ → Option Vec3
  | .translNode t _ _ => some t
  | _ => none

end MeshTree

/-- A dense matrix over the value type `V`: explicit dimensions plus an entry
function (entries outside the dimensions are irrelevant). -/
structure DMat (V : Type) where
  rows : ℕ
  cols : ℕ
  entry : ℕ → ℕ → V

instance {V : Type} [Inhabited V] : Inhabited (DMat V) := ⟨⟨0, 0, fun _ _ => default⟩⟩

/-- Equality of dense matrices: same dimensions and same entries inside them. -/
def DMat.Equal {V : Type} (A B : DMat V) : Prop :=
  A.rows = B.rows ∧ A.cols = B.cols ∧
    ∀ i, i < A.rows → ∀ j, j < A.cols → A.entry i j = B.entry i j

instance {V : Type} [DecidableEq V] (A B : DMat V) : Decidable (DMat.Equal A B) := by
  unfold DMat.Equal
  infer_instance

/-- Modelled from the spec: the external base kernel evaluator
(`build_matrices`, the function wrapped by the decorator; its implementation
is outside this module).  Per the spec, an influence matrix is the dense
matrix whose `(i, j)` entry is the kernel evaluated between panel `i` of the
receiving mesh and panel `j` of the source mesh, so the base evaluator on two
meshes is the brute-force evaluation on all panel pairs. -/
def baseMatrix {ρ V : Type} [Inhabited ρ] (K : ρ → ρ → V) (m1 m2 : MeshTree ρ) : DMat V :=
  ⟨(MeshTree.panels m1).length, (MeshTree.panels m2).length,
   fun i j => K ((MeshTree.panels m1).getD i default) ((MeshTree.panels m2).getD j default)⟩

/-- The matrix-like values returned by the assembler: either a dense matrix
from the base evaluator, or one of the two structured containers
(`BlockToeplitzMatrix`, `BlockCirculantMatrix` from `capytaine.Toeplitz_matrices`). -/
inductive SMatrix (V : Type) : Type where
  | dense (m : DMat V)
  | blockToeplitz (blocks : List (SMatrix V))
  | blockCirculant (blocks : List (SMatrix V)) (size : ℕ)

/-- The index of the stored generator block used by an `n`-periodic block
circulant matrix at block position `(i, j)`: the cyclic distance
`min (d, n - d)` with `d = (j - i) mod n`. -/
def circIndex (n i j : ℕ) : ℕ := min ((j + n - i) % n) (n - (j + n - i) % n)

mutual
/-- Modelled from the spec: expansion of the structured matrices of
`capytaine.Toeplitz_matrices` (not part of the sources) to dense form.
A `BlockToeplitzMatrix` built from the `n` blocks of its first block row is
the symmetric block-Toeplitz matrix whose blocks are constant along each
diagonal, block `(i, j)` being stored block number `|i - j|`; a
`BlockCirculantMatrix` of size `n` wraps around cyclically, block `(i, j)`
being stored block number `min (d, n - d)` with `d = (j - i) mod n`. -/
def SMatrix.expand {V : Type} [Inhabited V] : SMatrix V → DMat V
  | .dense m => m
  | .blockToeplitz blocks =>
      let ebs := SMatrix.expandList blocks
      let n := ebs.length
      let r := (ebs.headD default).rows
      let c := (ebs.headD default).cols
      ⟨n * r, n * c,
       fun i j => (ebs.getD (Nat.dist (i / r) (j / c)) default).entry (i % r) (j % c)⟩
  | .blockCirculant blocks n =>
      let ebs := SMatrix.expandList blocks
      let r := (ebs.headD default).rows
      let c := (ebs.headD default).cols
      ⟨n * r, n * c,
       fun i j => (ebs.getD (circIndex n (i / r) (j / c)) default).entry (i % r) (j % c)⟩

/-- `SMatrix.expand` on every block of a list. -/
def SMatrix.expandList {V : Type} [Inhabited V] : List (SMatrix V) → List (DMat V)
  | [] => []
  | b :: bs => SMatrix.expand b :: SMatrix.expandList bs
end

/-- The pair of dense base-evaluator results, as returned by the final
`else` clause of the dispatcher. -/
def basePair {ρ V : Type} [Inhabited ρ] (K1 K2 : ρ → ρ → V) (m1 m2 : MeshTree ρ) :
    SMatrix V × SMatrix V :=
  (.dense (baseMatrix K1 m1 m2), .dense (baseMatrix K2 m1 m2))

/-- The recursive assembler `build_matrices_with_symmetries` produced by the
`use_symmetries` decorator, translated clause by clause from the source.
The solver and extra positional arguments it merely forwards are absorbed
into the two kernels `K1` (for S) and `K2` (for V); the `_rec_depth`
parameter only feeds log indentation and is dropped.  The dispatch clauses
are tried in source order; since each requires a distinct runtime class for
`mesh1`, matching on `mesh1` first is the same dispatch. -/
def build_matrices_with_symmetries {ρ V : Type} [Inhabited ρ] (K1 K2 : ρ → ρ → V) :
    MeshTree ρ → MeshTree ρ → SMatrix V × SMatrix V
  | .reflNode p1 h1 o1, m2 =>
      match m2 with
      | .reflNode p2 h2 o2 =>
          if p1 = p2 then
            let a := build_matrices_with_symmetries K1 K2 h1 h2
            let b := build_matrices_with_symmetries K1 K2 h1 o2
            (.blockToeplitz [a.1, b.1], .blockToeplitz [a.2, b.2])
          else basePair K1 K2 (.reflNode p1 h1 o1) (.reflNode p2 h2 o2)
      | m2 => basePair K1 K2 (.reflNode p1 h1 o1) m2
  | .translNode t1 s1 r1, m2 =>
      match m2 with
      | .translNode t2 s2 r2 =>
          if vecClose t1 t2 = true ∧ (s1 :: r1).length = (s2 :: r2).length then
            let ps := (s2 :: r2).map (fun s => build_matrices_with_symmetries K1 K2 s1 s)
            (.blockToeplitz (ps.map Prod.fst), .blockToeplitz (ps.map Prod.snd))
          else basePair K1 K2 (.translNode t1 s1 r1) (.translNode t2 s2 r2)
      | m2 => basePair K1 K2 (.translNode t1 s1 r1) m2
  | .axialNode i1 pt1 s1 r1, m2 =>
      match m2 with
      | .axialNode i2 pt2 s2 r2 =>
          if i1 = i2 then
            let ps := ((s2 :: r2).take ((s2 :: r2).length / 2 + 1)).map
              (fun s => build_matrices_with_symmetries K1 K2 s1 s)
            (.blockCirculant (ps.map Prod.fst) (s1 :: r1).length,
             .blockCirculant (ps.map Prod.snd) (s1 :: r1).length)
          else basePair K1 K2 (.axialNode i1 pt1 s1 r1) (.axialNode i2 pt2 s2 r2)
      | m2 => basePair K1 K2 (.axialNode i1 pt1 s1 r1) m2
  | .leaf ps, m2 => basePair K1 K2 (.leaf ps) m2
  | .coll subs, m2 => basePair K1 K2 (.coll subs) m2

section Constructors

variable {ρ : Type} (mirrorP : MPlane → ρ → ρ) (translP : Vec3 → ρ → ρ) (rotP : ℚ → ρ → ρ)

/-- The `ReflectionSymmetry` constructor: requires a vertical symmetry plane
(`plane.normal[2] == 0`), then builds the two-element composite of the half
and its mirrored copy.  `none` models the assertion failure. -/
def ReflectionSymmetry (plane : MPlane) (half : MeshTree ρ) : Option (MeshTree ρ) :=
  if plane.normal.z = 0 then
    some (.reflNode plane half (MeshTree.treeMap (mirrorP plane) half))
  else none

/-- The `TranslationalSymmetry` constructor: requires an integer
`nb_repetitions >= 1` and a horizontal translation (`translation[2] == 0`),
then builds the composite of the slice and its copies translated by
`i * translation` for `i = 1 .. nb_repetitions`. -/
def TranslationalSymmetry (mesh_slice : MeshTree ρ) (translation : Vec3)
    (nb_repetitions : ℤ) : Option (MeshTree ρ) :=
  if 1 ≤ nb_repetitions ∧ translation.z = 0 then
    some (.translNode translation mesh_slice
      ((List.range' 1 nb_repetitions.toNat).map
        (fun i => MeshTree.treeMap (translP (vsmul i translation)) mesh_slice)))
  else none

/-- The transformation applied to copy `i` by the `AxialSymmetry` constructor:
translate the axis point to the origin, rotate about the vertical axis by the
turn fraction `θ` (the angle `2·π·θ` radians), translate back.  The source
applies the three operations as successive whole-mesh transformations; mapping
their composition panel-wise is the same mesh. -/
def axialTransform (pt : Vec3) (θ : ℚ) (x : ρ) : ρ := translP pt (rotP θ (translP (vneg pt) x))

/-- The `AxialSymmetry` constructor: requires an integer `nb_repetitions >= 1`,
then builds the composite of the slice and its copies rotated by
`i · 2π/(nb_repetitions+1)` (turn fraction `i/(nb_repetitions+1)`) about the
vertical axis through `point_on_rotation_axis`, for `i = 1 .. nb_repetitions`.
`ident` is the allocator tag of the new Python object. -/
def AxialSymmetry (mesh_slice : MeshTree ρ) (point_on_rotation_axis : Vec3)
    (nb_repetitions : ℤ) (ident : ℕ) : Option (MeshTree ρ) :=
  if 1 ≤ nb_repetitions then
    some (.axialNode ident point_on_rotation_axis mesh_slice
      ((List.range' 1 nb_repetitions.toNat).map
        (fun i : ℕ => MeshTree.treeMap
          (axialTransform translP rotP point_on_rotation_axis
            ((i : ℚ) / ((nb_repetitions : ℚ) + 1)))
          mesh_slice)))
  else none

/-- `CollectionOfMeshes.merge()` (external collaborator, modelled from the
spec): flatten a composite into one plain mesh holding all its panels. -/
def mergeMesh (m : MeshTree ρ) : MeshTree ρ := .leaf (MeshTree.panels m)

/-- Mesh addition (the external `Mesh.__add__` used by `sum(...)` in `join`,
modelled from the spec): the union of the panels of the two meshes. -/
def meshAdd (a b : MeshTree ρ) : MeshTree ρ := .leaf (MeshTree.panels a ++ MeshTree.panels b)

/-- The assertion applied by `join` to every mesh after the first: it must be
a `TranslationalSymmetry` whose translation is `allclose` to the first mesh's
translation (argument order of the source: `allclose(meshes[0].translation,
mesh.translation)`) and which has the same number of sub-meshes. -/
def joinCompatible (t0 : Vec3) (n0 : ℕ) : MeshTree ρ → Bool
  | .translNode t s r => vecClose t0 t && ((s :: r).length == n0)
  | _ => false

/-- `TranslationalSymmetry.join`, translated from the source: after the
assertions, merge the first sub-mesh of every input into one mesh (Python
`sum` with the first mesh's merged slice as the start value) and call the
`TranslationalSymmetry` constructor with the first input's translation and
`nb_repetitions = len(meshes[0].submeshes)`. -/
def TranslationalSymmetry_join (meshes : List (MeshTree ρ)) : Option (MeshTree ρ) :=
  match meshes with
  | .translNode t0 s0 r0 :: rest =>
      if (rest.all (joinCompatible t0 (s0 :: r0).length)) = true then
        TranslationalSymmetry translP
          (List.foldl (fun acc m => meshAdd acc (mergeMesh ((MeshTree.submeshesOf m).headD (.leaf []))))
            (mergeMesh s0) rest)
          t0 ((s0 :: r0).length : ℤ)
      else none
  | _ => none

end Constructors

/-- The shape assertions of `from_profile` on the profile array
(`len(shape) == 2` and `shape[1] == 3`); the shape of a numpy array is
modelled as the list of its dimensions. -/
def profileShapeOK (shape : List ℕ) : Bool := shape.length == 2 && shape.getD 1 0 == 3

/-- A raw mesh of the external mesh library: a vertex list and a list of faces,
each face a list of vertex indices. -/
structure RawMesh (σ : Type) where
  vertices : List σ
  faces : List (List ℕ)

section FromProfile

variable {σ : Type} [Inhabited σ] (trPt : Vec3 → σ → σ) (rotPt : ℚ → σ → σ)

/-- Turn a raw vertex/face mesh into a leaf mesh whose panels are the faces
with their vertex indices resolved. -/
def rawToLeaf (m : RawMesh σ) : MeshTree (List σ) :=
  .leaf (m.faces.map (fun f => f.map (fun i => m.vertices.getD i default)))

/-- The single revolution slice built by `AxialSymmetry.from_profile` before
welding: the profile vertices together with their copy rotated by the angle
`2π/nphi` (turn fraction `1/nphi`), and one quadrilateral
`[i, i+n, i+n+1, i+1]` between the two profiles for each `i < n - 1`. -/
def revolutionSlice (profile : List σ) (nphi : ℤ) : RawMesh σ :=
  let n := profile.length
  ⟨profile ++ profile.map (rotPt (1 / (nphi : ℚ))),
   (List.range (n - 1)).map (fun i => [i, i + n, i + n + 1, i + 1])⟩

/-- `AxialSymmetry.from_profile` for a profile given as a point list (the
callable variant only differs in how this list is sampled): build the
revolution slice, weld duplicate vertices (`merge_duplicates`) and repair
degenerate faces (`heal_triangles`) — both external collaborator operations,
passed as the abstract functions `weld` and `heal` — then call the
`AxialSymmetry` constructor with `nb_repetitions = nphi - 1`.  A zero `nphi`
raises (`ZeroDivisionError` computing `2π/nphi`), modelled by `none`. -/
def AxialSymmetry_from_profile (weld heal : RawMesh σ → RawMesh σ)
    (profile : List σ) (point_on_rotation_axis : Vec3) (nphi : ℤ) (ident : ℕ) :
    Option (MeshTree (List σ)) :=
  if nphi = 0 then none
  else
    AxialSymmetry (fun v => List.map (trPt v)) (fun θ => List.map (rotPt θ))
      (rawToLeaf (heal (weld (revolutionSlice rotPt profile nphi))))
      point_on_rotation_axis (nphi - 1) ident

end FromProfile

section Laws

variable {ρ V : Type} (mirrorP : MPlane → ρ → ρ) (translP : Vec3 → ρ → ρ) (rotP : ℚ → ρ → ρ)

/-- Algebraic laws of the external geometric operations: translations compose
additively, rotation is a periodic action (a full turn is the identity, as the
data-model invariant states for the `(n+1)`-th rotation), and mirroring is an
involution. -/
structure GeomLaws : Prop where
  translP_zero : ∀ x, translP vzero x = x
  translP_add : ∀ u v x, translP u (translP v x) = translP (vadd u v) x
  rotP_zero : ∀ x, rotP 0 x = x
  rotP_one : ∀ x, rotP 1 x = x
  rotP_add : ∀ a b x, rotP a (rotP b x) = rotP (a + b) x
  mirrorP_invol : ∀ p x, mirrorP p (mirrorP p x) = x

/-- Preconditions on the physical kernel evaluated by the base evaluator,
under which the symmetry shortcuts are lossless: invariance under applying
the same rigid transformation (mirror, translation, rotation about a vertical
axis) to both panels, and the block-reciprocity assumed by the structured
containers — moving a panel by a translation or an axis rotation from the
first to the second argument leaves the kernel unchanged.  The spec (§9)
states this reciprocity as a precondition on the collaborator. -/
structure KernelLaws (K : ρ → ρ → V) : Prop where
  mirror_inv : ∀ p x y, K (mirrorP p x) (mirrorP p y) = K x y
  transl_inv : ∀ v x y, K (translP v x) (translP v y) = K x y
  rot_inv : ∀ θ x y, K (rotP θ x) (rotP θ y) = K x y
  transl_swap : ∀ v x y, K (translP v x) y = K x (translP v y)
  ax_swap : ∀ pt θ x y,
    K (axialTransform translP rotP pt θ x) y = K x (axialTransform translP rotP pt θ y)

/-- The structural invariants the three symmetric constructors establish
(spec §3): a reflection node holds a half and its mirrored copy, a
translation node holds a slice and its translates by `i · t`, an axial node
holds a slice and its rotated copies by the turn fractions `i/(n+1)`;
children are recursively well-formed. -/
inductive WF : MeshTree ρ → Prop where
  | leaf (ps : List ρ) : WF (.leaf ps)
  | coll (subs : List (MeshTree ρ)) : (∀ s ∈ subs, WF s) → WF (.coll subs)
  | reflN (p : MPlane) (h : MeshTree ρ) :
      WF h → WF (MeshTree.treeMap (mirrorP p) h) →
      WF (.reflNode p h (MeshTree.treeMap (mirrorP p) h))
  | translN (t : Vec3) (s : MeshTree ρ) (rest : List (MeshTree ρ)) :
      WF s → (∀ x ∈ rest, WF x) →
      rest = (List.range' 1 rest.length).map
        (fun i => MeshTree.treeMap (translP (vsmul i t)) s) →
      WF (.translNode t s rest)
  | axialN (id : ℕ) (pt : Vec3) (s : MeshTree ρ) (rest : List (MeshTree ρ)) :
      WF s → (∀ x ∈ rest, WF x) →
      rest = (List.range' 1 rest.length).map
        (fun i : ℕ => MeshTree.treeMap
          (axialTransform translP rotP pt ((i : ℚ) / ((rest.length : ℚ) + 1))) s) →
      WF (.axialNode id pt s rest)

end Laws

/-- The heap convention behind the `mesh1 is mesh2` test: Python object
identity implies equality of values, so any axial subtree of the first tree
and axial subtree of the second tree carrying the same allocator tag are the
same object, hence equal. -/
def HeapOK {ρ : Type} (t1 t2 : MeshTree ρ) : Prop :=
  ∀ s1 ∈ MeshTree.subtreesList t1, ∀ s2 ∈ MeshTree.subtreesList t2,
    (MeshTree.identOf s1).isSome = true → MeshTree.identOf s1 = MeshTree.identOf s2 → s1 = s2

/-- Tolerance tightness: any two translation nodes of the two trees whose
translation vectors agree within the `allclose` tolerance have exactly equal
vectors.  This is the exact-arithmetic reading of the spec's "equal
translation vectors (within floating-point tolerance)". -/
def TolExact {ρ : Type} (t1 t2 : MeshTree ρ) : Prop :=
  ∀ s1 ∈ MeshTree.subtreesList t1, ∀ s2 ∈ MeshTree.subtreesList t2,
    ∀ u v, MeshTree.translVecOf s1 = some u → MeshTree.translVecOf s2 = some v →
      vecClose u v = true → u = v

/-- Concrete panel transformations and kernel used to instantiate the abstract
collaborators in concrete examples: a sign-flip mirror, trivial translation
and rotation actions, and a product kernel. -/
def negMirror : MPlane → ℤ → ℤ := fun _ x => -x

/-- Trivial translation action on integer panels. -/
def trivTransl : Vec3 → ℤ → ℤ := fun _ x => x

/-- Trivial rotation action on integer panels. -/
def trivRot : ℚ → ℤ → ℤ := fun _ x => x

/-- Product kernel on integer panels. -/
def prodK : ℤ → ℤ → ℤ := fun x y => x * y

/-- A concrete two-slice axially symmetric mesh over integer panels. -/
def wAxTree : MeshTree ℤ := .axialNode 0 vzero (.leaf [1, 2]) [.leaf [1, 2]]

namespace MeshTree

variable {ρ : Type}

mutual
/-- Structural induction for mesh trees, list children given memberwise. -/
theorem inductionOn {motive : MeshTree ρ → Prop}
    (hleaf : ∀ ps, motive (.leaf ps))
    (hcoll : ∀ subs, (∀ s ∈ subs, motive s) → motive (.coll subs))
    (hrefl : ∀ p h o, motive h → motive o → motive (.reflNode p h o))
    (htransl : ∀ t s rest, motive s → (∀ x ∈ rest, motive x) → motive (.translNode t s rest))
    (haxial : ∀ i pt s rest, motive s → (∀ x ∈ rest, motive x) →
      motive (.axialNode i pt s rest)) :
    ∀ t : MeshTree ρ, motive t
  | .leaf ps => hleaf ps
  | .coll subs => hcoll subs (inductionOnL hleaf hcoll hrefl htransl haxial subs)
  | .reflNode p h o =>
      hrefl p h o (inductionOn hleaf hcoll hrefl htransl haxial h)
        (inductionOn hleaf hcoll hrefl htransl haxial o)
  | .translNode t s rest =>
      htransl t s rest (inductionOn hleaf hcoll hrefl htransl haxial s)
        (inductionOnL hleaf hcoll hrefl htransl haxial rest)
  | .axialNode i pt s rest =>
      haxial i pt s rest (inductionOn hleaf hcoll hrefl htransl haxial s)
        (inductionOnL hleaf hcoll hrefl htransl haxial rest)

/-- `inductionOn` for every member of a list of mesh trees. -/
theorem inductionOnL {motive : MeshTree ρ → Prop}
    (hleaf : ∀ ps, motive (.leaf ps))
    (hcoll : ∀ subs, (∀ s ∈ subs, motive s) → motive (.coll subs))
    (hrefl : ∀ p h o, motive h → motive o → motive (.reflNode p h o))
    (htransl : ∀ t s rest, motive s → (∀ x ∈ rest, motive x) → motive (.translNode t s rest))
    (haxial : ∀ i pt s rest, motive s → (∀ x ∈ rest, motive x) →
      motive (.axialNode i pt s rest)) :
    ∀ l : List (MeshTree ρ), ∀ x ∈ l, motive x
  | t :: ts, x, hx =>
      Or.elim (List.mem_cons.mp hx)
        (fun he => he ▸ inductionOn hleaf hcoll hrefl htransl haxial t)
        (fun hm => inductionOnL hleaf hcoll hrefl htransl haxial ts x hm)
end

@[simp] theorem treeMapL_eq_map (f : ρ → ρ) (l : List (MeshTree ρ)) :
    treeMapL f l = l.map (treeMap f) := by
  induction l with
  | nil => rfl
  | cons t ts ih => simp [treeMapL, ih]

@[simp] theorem panelsL_eq_flatMap (l : List (MeshTree ρ)) :
    panelsL l = l.flatMap panels := by
  induction l with
  | nil => rfl
  | cons t ts ih => simp [panelsL, ih]

@[simp] theorem subtreesListL_eq_flatMap (l : List (MeshTree ρ)) :
    subtreesListL l = l.flatMap subtreesList := by
  induction l with
  | nil => rfl
  | cons t ts ih => simp [subtreesListL, ih]

theorem panels_treeMap (f : ρ → ρ) : ∀ t : MeshTree ρ,
    panels (treeMap f t) = (panels t).map f := by
  intro t
  induction t using inductionOn with
  | hleaf ps => simp [treeMap, panels]
  | hcoll subs ih =>
      simp only [treeMap, panels, treeMapL_eq_map, panelsL_eq_flatMap, List.flatMap_map,
        List.map_flatMap]
      exact List.flatMap_congr (fun x hx => by simp [ih x hx])
  | hrefl p h o ih1 ih2 => simp [treeMap, panels, ih1, ih2]
  | htransl t s rest ih1 ih2 =>
      simp only [treeMap, panels, treeMapL_eq_map, panelsL_eq_flatMap, List.flatMap_map,
        List.map_append, List.map_flatMap, ih1, List.append_cancel_left_eq]
      exact List.flatMap_congr (fun x hx => by simp [ih2 x hx])
  | haxial i pt s rest ih1 ih2 =>
      simp only [treeMap, panels, treeMapL_eq_map, panelsL_eq_flatMap, List.flatMap_map,
        List.map_append, List.map_flatMap, ih1, List.append_cancel_left_eq]
      exact List.flatMap_congr (fun x hx => by simp [ih2 x hx])

theorem length_panels_treeMap (f : ρ → ρ) (t : MeshTree ρ) :
    (panels (treeMap f t)).length = (panels t).length := by
  simp [panels_treeMap]

@[simp] theorem self_mem_subtreesList (t : MeshTree ρ) : t ∈ subtreesList t := by
  cases t <;> simp [subtreesList]

theorem mem_subtreesList_of_child {t x s : MeshTree ρ}
    (hx : x ∈ submeshesOf t) (hs : s ∈ subtreesList x) : s ∈ subtreesList t := by
  cases t with
  | leaf ps => simp [submeshesOf] at hx
  | coll subs =>
      simp only [submeshesOf] at hx
      simp only [subtreesList, subtreesListL_eq_flatMap, List.mem_cons, List.mem_flatMap]
      exact Or.inr ⟨x, hx, hs⟩
  | reflNode p h o =>
      simp only [submeshesOf, List.mem_cons, List.mem_singleton] at hx
      simp only [subtreesList, List.mem_cons, List.mem_append]
      rcases hx with rfl | rfl | h
      · exact Or.inr (Or.inl hs)
      · exact Or.inr (Or.inr hs)
      · simp at h
  | translNode t0 s0 rest =>
      simp only [submeshesOf, List.mem_cons] at hx
      simp only [subtreesList, subtreesListL_eq_flatMap, List.mem_cons, List.mem_append,
        List.mem_flatMap]
      rcases hx with rfl | h
      · exact Or.inr (Or.inl hs)
      · exact Or.inr (Or.inr ⟨x, h, hs⟩)
  | axialNode i pt s0 rest =>
      simp only [submeshesOf, List.mem_cons] at hx
      simp only [subtreesList, subtreesListL_eq_flatMap, List.mem_cons, List.mem_append,
        List.mem_flatMap]
      rcases hx with rfl | h
      · exact Or.inr (Or.inl hs)
      · exact Or.inr (Or.inr ⟨x, h, hs⟩)

end MeshTree

theorem heapOK_of_children {ρ : Type} {t1 t2 x1 x2 : MeshTree ρ} (h : HeapOK t1 t2)
    (h1 : x1 ∈ MeshTree.submeshesOf t1) (h2 : x2 ∈ MeshTree.submeshesOf t2) :
    HeapOK x1 x2 := by
  intro s1 hs1 s2 hs2 hi he
  exact h s1 (MeshTree.mem_subtreesList_of_child h1 hs1) s2
    (MeshTree.mem_subtreesList_of_child h2 hs2) hi he

theorem tolExact_of_children {ρ : Type} {t1 t2 x1 x2 : MeshTree ρ} (h : TolExact t1 t2)
    (h1 : x1 ∈ MeshTree.submeshesOf t1) (h2 : x2 ∈ MeshTree.submeshesOf t2) :
    TolExact x1 x2 := by
  intro s1 hs1 s2 hs2 u v hu hv hc
  exact h s1 (MeshTree.mem_subtreesList_of_child h1 hs1) s2
    (MeshTree.mem_subtreesList_of_child h2 hs2) u v hu hv hc

theorem DMat.Equal.refl {V : Type} (A : DMat V) : DMat.Equal A A :=
  ⟨rfl, rfl, fun _ _ _ _ => rfl⟩

@[simp] theorem vsmul_zero (v : Vec3) : vsmul 0 v = vzero := by
  simp [vsmul, vzero]

theorem vadd_vsmul (a b : ℕ) (v : Vec3) :
    vadd (vsmul a v) (vsmul b v) = vsmul (a + b) v := by
  simp only [vadd, vsmul, Vec3.mk.injEq]
  refine ⟨?_, ?_, ?_⟩ <;> push_cast <;> ring

theorem vadd_neg_self (v : Vec3) : vadd (vneg v) v = vzero := by
  simp [vadd, vneg, vzero]

section GeomDerived

variable {ρ V : Type} {mirrorP : MPlane → ρ → ρ} {translP : Vec3 → ρ → ρ} {rotP : ℚ → ρ → ρ}

theorem axialTransform_add (G : GeomLaws mirrorP translP rotP) (pt : Vec3) (a b : ℚ) (x : ρ) :
    axialTransform translP rotP pt a (axialTransform translP rotP pt b x) =
      axialTransform translP rotP pt (a + b) x := by
  simp only [axialTransform]
  rw [G.translP_add (vneg pt) pt, vadd_neg_self, G.translP_zero, G.rotP_add]

theorem axialTransform_zero (G : GeomLaws mirrorP translP rotP) (pt : Vec3) (x : ρ) :
    axialTransform translP rotP pt 0 x = x := by
  simp only [axialTransform]
  rw [G.rotP_zero, G.translP_add pt (vneg pt)]
  have : vadd pt (vneg pt) = vzero := by simp [vadd, vneg, vzero]
  rw [this, G.translP_zero]

theorem rotP_natCast (G : GeomLaws mirrorP translP rotP) (k : ℕ) (x : ρ) :
    rotP (k : ℚ) x = x := by
  induction k with
  | zero => simpa using G.rotP_zero x
  | succ n ih =>
      have h := G.rotP_add (n : ℚ) 1 (rotP 1 x)
      have h1 : rotP (1 : ℚ) x = x := G.rotP_one x
      calc rotP ((n + 1 : ℕ) : ℚ) x = rotP ((n : ℚ) + 1) x := by push_cast; ring_nf
        _ = rotP (n : ℚ) (rotP 1 x) := (G.rotP_add (n : ℚ) 1 x).symm
        _ = rotP (n : ℚ) x := by rw [h1]
        _ = x := ih

theorem axialTransform_add_nat (G : GeomLaws mirrorP translP rotP) (pt : Vec3) (θ : ℚ) (k : ℕ)
    (x : ρ) :
    axialTransform translP rotP pt (θ + (k : ℚ)) x =
      axialTransform translP rotP pt θ x := by
  simp only [axialTransform]
  rw [← G.rotP_add θ (k : ℚ), rotP_natCast G]

end GeomDerived

section KernelDerived

variable {ρ V : Type} {mirrorP : MPlane → ρ → ρ} {translP : Vec3 → ρ → ρ} {rotP : ℚ → ρ → ρ}
  {K : ρ → ρ → V}

theorem axialTransform_inv (KL : KernelLaws mirrorP translP rotP K) (pt : Vec3) (θ : ℚ) (x y : ρ) :
    K (axialTransform translP rotP pt θ x) (axialTransform translP rotP pt θ y) = K x y := by
  simp only [axialTransform]
  rw [KL.transl_inv, KL.rot_inv, KL.transl_inv]

theorem mirror_swap (KL : KernelLaws mirrorP translP rotP K)
    (G : GeomLaws mirrorP translP rotP) (p : MPlane) (x y : ρ) :
    K (mirrorP p x) y = K x (mirrorP p y) := by
  have h := KL.mirror_inv p x (mirrorP p y)
  rw [G.mirrorP_invol] at h
  exact h

end KernelDerived

theorem getD_map_range' {α : Type} (k : ℕ) (f : ℕ → α) (i : ℕ) (hi : i < k) (d : α) :
    ((List.range' 1 k).map f).getD i d = f (1 + i) := by
  have hlen : i < ((List.range' 1 k).map f).length := by simpa using hi
  rw [List.getD_eq_getElem _ _ hlen]
  simp [List.getElem_range']

theorem length_flatMap_uniform {α β : Type} (l : List α) (g : α → List β) (r : ℕ)
    (h : ∀ x ∈ l, (g x).length = r) : (l.flatMap g).length = l.length * r := by
  induction l with
  | nil => simp
  | cons x xs ih =>
      simp only [List.flatMap_cons, List.length_append, List.length_cons]
      rw [h x (by simp), ih (fun y hy => h y (by simp [hy]))]
      ring

theorem getD_flatMap_uniform {α β : Type} (l : List α) (g : α → List β) (r : ℕ)
    (h : ∀ x ∈ l, (g x).length = r) (q s : ℕ) (hq : q < l.length) (hs : s < r)
    (d : β) (dm : α) :
    (l.flatMap g).getD (q * r + s) d = (g (l.getD q dm)).getD s d := by
  induction l generalizing q with
  | nil => simp at hq
  | cons x xs ih =>
      cases q with
      | zero =>
          simp only [List.flatMap_cons, Nat.zero_mul, Nat.zero_add, List.getD_cons_zero]
          have hx : s < (g x).length := by rw [h x (by simp)]; exact hs
          rw [List.getD_append _ _ _ _ hx]
      | succ q =>
          have hxlen : (g x).length = r := h x (by simp)
          have hidx : (g x).length ≤ (q + 1) * r + s := by
            rw [hxlen]
            calc r ≤ (q + 1) * r := Nat.le_mul_of_pos_left r (Nat.succ_pos q)
              _ ≤ (q + 1) * r + s := Nat.le_add_right _ _
          simp only [List.flatMap_cons, List.getD_cons_succ]
          rw [List.getD_append_right _ _ _ _ hidx]
          have harith : (q + 1) * r + s - (g x).length = q * r + s := by
            rw [hxlen]
            have : (q + 1) * r = q * r + r := by ring
            omega
          rw [harith]
          exact ih (fun y hy => h y (by simp [hy])) q (by simpa using hq)

section DispatchEquations

variable {ρ V : Type} [Inhabited ρ] (K1 K2 : ρ → ρ → V)

theorem bmws_eq_mirror (p1 p2 : MPlane) (h1 o1 h2 o2 : MeshTree ρ) :
    build_matrices_with_symmetries K1 K2 (.reflNode p1 h1 o1) (.reflNode p2 h2 o2) =
      if p1 = p2 then
        (.blockToeplitz [(build_matrices_with_symmetries K1 K2 h1 h2).1,
                         (build_matrices_with_symmetries K1 K2 h1 o2).1],
         .blockToeplitz [(build_matrices_with_symmetries K1 K2 h1 h2).2,
                         (build_matrices_with_symmetries K1 K2 h1 o2).2])
      else basePair K1 K2 (.reflNode p1 h1 o1) (.reflNode p2 h2 o2) := by
  rw [build_matrices_with_symmetries]

theorem bmws_eq_transl (t1 t2 : Vec3) (s1 s2 : MeshTree ρ) (r1 r2 : List (MeshTree ρ)) :
    build_matrices_with_symmetries K1 K2 (.translNode t1 s1 r1) (.translNode t2 s2 r2) =
      if vecClose t1 t2 = true ∧ (s1 :: r1).length = (s2 :: r2).length then
        (.blockToeplitz (((s2 :: r2).map
            (fun s => build_matrices_with_symmetries K1 K2 s1 s)).map Prod.fst),
         .blockToeplitz (((s2 :: r2).map
            (fun s => build_matrices_with_symmetries K1 K2 s1 s)).map Prod.snd))
      else basePair K1 K2 (.translNode t1 s1 r1) (.translNode t2 s2 r2) := by
  rw [build_matrices_with_symmetries]

theorem bmws_eq_axial (i1 i2 : ℕ) (pt1 pt2 : Vec3) (s1 s2 : MeshTree ρ)
    (r1 r2 : List (MeshTree ρ)) :
    build_matrices_with_symmetries K1 K2 (.axialNode i1 pt1 s1 r1) (.axialNode i2 pt2 s2 r2) =
      if i1 = i2 then
        (.blockCirculant ((((s2 :: r2).take ((s2 :: r2).length / 2 + 1)).map
            (fun s => build_matrices_with_symmetries K1 K2 s1 s)).map Prod.fst)
          (s1 :: r1).length,
         .blockCirculant ((((s2 :: r2).take ((s2 :: r2).length / 2 + 1)).map
            (fun s => build_matrices_with_symmetries K1 K2 s1 s)).map Prod.snd)
          (s1 :: r1).length)
      else basePair K1 K2 (.axialNode i1 pt1 s1 r1) (.axialNode i2 pt2 s2 r2) := by
  rw [build_matrices_with_symmetries]

end DispatchEquations

@[simp] theorem expandList_eq_map {V : Type} [Inhabited V] (l : List (SMatrix V)) :
    SMatrix.expandList l = l.map SMatrix.expand := by
  induction l with
  | nil => rfl
  | cons b bs ih => simp [SMatrix.expandList, ih]

theorem panels_translNode {ρ : Type} (t : Vec3) (s : MeshTree ρ) (rest : List (MeshTree ρ)) :
    MeshTree.panels (.translNode t s rest) = (s :: rest).flatMap MeshTree.panels := by
  simp [MeshTree.panels]

theorem panels_axialNode {ρ : Type} (i : ℕ) (pt : Vec3) (s : MeshTree ρ)
    (rest : List (MeshTree ρ)) :
    MeshTree.panels (.axialNode i pt s rest) = (s :: rest).flatMap MeshTree.panels := by
  simp [MeshTree.panels]

theorem panels_reflNode {ρ : Type} (p : MPlane) (h o : MeshTree ρ) :
    MeshTree.panels (.reflNode p h o) = [h, o].flatMap MeshTree.panels := by
  simp [MeshTree.panels]

theorem panels_length_of_range' {ρ : Type} (s : MeshTree ρ) (F : ℕ → ρ → ρ) (k : ℕ) :
    ∀ x ∈ s :: (List.range' 1 k).map (fun i => MeshTree.treeMap (F i) s),
      (MeshTree.panels x).length = (MeshTree.panels s).length := by
  intro x hx
  rcases List.mem_cons.mp hx with rfl | hm
  · rfl
  · rcases List.mem_map.mp hm with ⟨i, _, rfl⟩
    exact MeshTree.length_panels_treeMap _ _

theorem panels_getD_of_range' {ρ : Type} (s : MeshTree ρ) (F : ℕ → ρ → ρ)
    (hF0 : ∀ x, F 0 x = x) (k q : ℕ) (hq : q < k + 1) (dm : MeshTree ρ) :
    MeshTree.panels ((s :: (List.range' 1 k).map (fun i => MeshTree.treeMap (F i) s)).getD q dm)
      = (MeshTree.panels s).map (F q) := by
  cases q with
  | zero =>
      simp only [List.getD_cons_zero]
      symm
      exact (List.map_congr_left (fun x _ => hF0 x)).trans (List.map_id _)
  | succ q =>
      have hq' : q < k := by omega
      simp only [List.getD_cons_succ]
      rw [getD_map_range' k _ q hq', MeshTree.panels_treeMap]
      have : 1 + q = q + 1 := by omega
      rw [this]

section KernelDistance

variable {ρ V : Type} {mirrorP : MPlane → ρ → ρ} {translP : Vec3 → ρ → ρ} {rotP : ℚ → ρ → ρ}
  {K : ρ → ρ → V}

theorem kernel_transl_dist (KL : KernelLaws mirrorP translP rotP K)
    (G : GeomLaws mirrorP translP rotP) (t : Vec3) (bi bj : ℕ) (x y : ρ) :
    K (translP (vsmul bi t) x) (translP (vsmul bj t) y)
      = K x (translP (vsmul (Nat.dist bi bj) t) y) := by
  rcases le_total bi bj with hle | hle
  · have hd : Nat.dist bi bj = bj - bi := Nat.dist_eq_sub_of_le hle
    have hsplit : translP (vsmul bj t) y
        = translP (vsmul bi t) (translP (vsmul (bj - bi) t) y) := by
      rw [G.translP_add, vadd_vsmul]
      have : bi + (bj - bi) = bj := by omega
      rw [this]
    rw [hsplit, KL.transl_inv, hd]
  · have hd : Nat.dist bi bj = bi - bj := by
      rw [Nat.dist_comm]
      exact Nat.dist_eq_sub_of_le hle
    have hsplit : translP (vsmul bi t) x
        = translP (vsmul bj t) (translP (vsmul (bi - bj) t) x) := by
      rw [G.translP_add, vadd_vsmul]
      have : bj + (bi - bj) = bi := by omega
      rw [this]
    rw [hsplit, KL.transl_inv, KL.transl_swap, hd]

theorem axialTransform_one (G : GeomLaws mirrorP translP rotP) (pt : Vec3) (x : ρ) :
    axialTransform translP rotP pt 1 x = x := by
  simp only [axialTransform]
  rw [G.rotP_one, G.translP_add pt (vneg pt)]
  have : vadd pt (vneg pt) = vzero := by simp [vadd, vneg, vzero]
  rw [this, G.translP_zero]

theorem div_cast_split (n m : ℕ) (hn : 0 < n) :
    (m : ℚ) / n = ((m % n : ℕ) : ℚ) / n + ((m / n : ℕ) : ℚ) := by
  have hn' : (n : ℚ) ≠ 0 := by positivity
  have decomp : m = m % n + n * (m / n) := (Nat.mod_add_div m n).symm
  have hc : (m : ℚ) = ((m % n : ℕ) : ℚ) + (n : ℚ) * ((m / n : ℕ) : ℚ) := by
    exact_mod_cast decomp
  rw [hc, add_div]
  congr 1
  exact mul_div_cancel_left₀ _ hn'

theorem kernel_axial_dist (KL : KernelLaws mirrorP translP rotP K)
    (G : GeomLaws mirrorP translP rotP) (pt : Vec3) (n : ℕ) (hn : 0 < n) (bi bj : ℕ)
    (hbi : bi < n) (x y : ρ) :
    K (axialTransform translP rotP pt ((bi : ℚ) / n) x)
      (axialTransform translP rotP pt ((bj : ℚ) / n) y)
      = K x (axialTransform translP rotP pt ((((bj + n - bi) % n : ℕ) : ℚ) / n) y) := by
  have hn' : (n : ℚ) ≠ 0 := by positivity
  have e1 := (axialTransform_inv KL pt (((n - bi : ℕ) : ℚ) / n)
    (axialTransform translP rotP pt ((bi : ℚ) / n) x)
    (axialTransform translP rotP pt ((bj : ℚ) / n) y)).symm
  rw [axialTransform_add G, axialTransform_add G] at e1
  have h1 : ((n - bi : ℕ) : ℚ) / n + (bi : ℚ) / n = 1 := by
    rw [div_add_div_same]
    have hs : ((n - bi : ℕ) : ℚ) + (bi : ℚ) = (n : ℚ) := by
      have : (n - bi) + bi = n := by omega
      exact_mod_cast congrArg (Nat.cast : ℕ → ℚ) this
    rw [hs, div_self hn']
  have h2 : ((n - bi : ℕ) : ℚ) / n + (bj : ℚ) / n = (((n - bi) + bj : ℕ) : ℚ) / n := by
    rw [div_add_div_same]
    congr 1
    push_cast
    ring
  rw [h1, h2, axialTransform_one G] at e1
  have hm : (n - bi) + bj = bj + n - bi := by omega
  rw [hm] at e1
  have h3 : ((bj + n - bi : ℕ) : ℚ) / n
      = (((bj + n - bi) % n : ℕ) : ℚ) / n + (((bj + n - bi) / n : ℕ) : ℚ) :=
    div_cast_split n (bj + n - bi) hn
  rw [h3, axialTransform_add_nat G] at e1
  exact e1

theorem kernel_axial_halfswap (KL : KernelLaws mirrorP translP rotP K)
    (G : GeomLaws mirrorP translP rotP) (pt : Vec3) (n : ℕ) (d : ℕ) (hd : d ≤ n)
    (x y : ρ) :
    K x (axialTransform translP rotP pt ((d : ℚ) / n) y)
      = K x (axialTransform translP rotP pt (((n - d : ℕ) : ℚ) / n) y) := by
  rcases Nat.eq_zero_or_pos n with rfl | hn
  · have hd0 : d = 0 := by omega
    subst hd0
    norm_num
  have hn' : (n : ℚ) ≠ 0 := by positivity
  have e1 := (axialTransform_inv KL pt ((d : ℚ) / n) x
    (axialTransform translP rotP pt (((n - d : ℕ) : ℚ) / n) y)).symm
  rw [axialTransform_add G] at e1
  have h1 : (d : ℚ) / n + ((n - d : ℕ) : ℚ) / n = 1 := by
    rw [div_add_div_same]
    have hs : (d : ℚ) + ((n - d : ℕ) : ℚ) = (n : ℚ) := by
      have : d + (n - d) = n := by omega
      exact_mod_cast congrArg (Nat.cast : ℕ → ℚ) this
    rw [hs, div_self hn']
  rw [h1, axialTransform_one G, KL.ax_swap] at e1
  exact e1.symm

end KernelDistance

@[simp] theorem baseMatrix_rows {ρ V : Type} [Inhabited ρ] (K : ρ → ρ → V) (m1 m2 : MeshTree ρ) :
    (baseMatrix K m1 m2).rows = (MeshTree.panels m1).length := rfl

@[simp] theorem baseMatrix_cols {ρ V : Type} [Inhabited ρ] (K : ρ → ρ → V) (m1 m2 : MeshTree ρ) :
    (baseMatrix K m1 m2).cols = (MeshTree.panels m2).length := rfl

@[simp] theorem baseMatrix_entry {ρ V : Type} [Inhabited ρ] (K : ρ → ρ → V) (m1 m2 : MeshTree ρ)
    (i j : ℕ) :
    (baseMatrix K m1 m2).entry i j
      = K ((MeshTree.panels m1).getD i default) ((MeshTree.panels m2).getD j default) := rfl

theorem grid_index_decomp (n r i : ℕ) (hi : i < n * r) :
    i / r < n ∧ i % r < r ∧ i = (i / r) * r + i % r := by
  have hr : 0 < r := by
    rcases Nat.eq_zero_or_pos r with rfl | hr
    · omega
    · exact hr
  refine ⟨?_, Nat.mod_lt _ hr, ?_⟩
  · exact (Nat.div_lt_iff_lt_mul hr).mpr (by omega)
  · have h := Nat.div_add_mod i r
    have h2 : (i / r) * r = r * (i / r) := Nat.mul_comm _ _
    omega

theorem mul_add_div_eq (r bi si : ℕ) (hsi : si < r) : (bi * r + si) / r = bi := by
  have hr : 0 < r := by omega
  rw [Nat.mul_comm bi r, Nat.mul_add_div hr, Nat.div_eq_of_lt hsi, Nat.add_zero]

theorem mul_add_mod_eq (r bi si : ℕ) (hsi : si < r) : (bi * r + si) % r = si := by
  rw [Nat.mul_comm bi r, Nat.mul_add_mod, Nat.mod_eq_of_lt hsi]

theorem DMat.Equal.trans {V : Type} {A B C : DMat V} (h1 : DMat.Equal A B)
    (h2 : DMat.Equal B C) : DMat.Equal A C := by
  obtain ⟨hr1, hc1, he1⟩ := h1
  obtain ⟨hr2, hc2, he2⟩ := h2
  refine ⟨hr1.trans hr2, hc1.trans hc2, ?_⟩
  intro i hi j hj
  rw [he1 i hi j hj, he2 i (hr1 ▸ hi) j (hc1 ▸ hj)]

/-- The central block-grid argument, shared by the three symmetric dispatch
cases: an `n × n` block grid over two composites whose sub-meshes are
transformed copies `F1 q`/`F2 q` of base meshes, whose entry function reads a
representative block through an index map `idx`, equals the brute-force base
matrix of the composites, provided the kernel satisfies the corresponding
block-reuse law `hK`. -/
theorem block_grid_correct {ρ V : Type} [Inhabited ρ] [Inhabited V] (K : ρ → ρ → V)
    (m1 m2 base1 base2 : MeshTree ρ) (subs1 subs2 : List (MeshTree ρ))
    (F1 F2 : ℕ → ρ → ρ) (idx : ℕ → ℕ → ℕ) (n r c : ℕ) (f : ℕ → ℕ → V)
    (hsubs1len : subs1.length = n) (hsubs2len : subs2.length = n)
    (hpanels1 : MeshTree.panels m1 = subs1.flatMap MeshTree.panels)
    (hpanels2 : MeshTree.panels m2 = subs2.flatMap MeshTree.panels)
    (hu1 : ∀ x ∈ subs1, (MeshTree.panels x).length = r)
    (hu2 : ∀ x ∈ subs2, (MeshTree.panels x).length = c)
    (hp1 : ∀ q, q < n → ∀ dm, MeshTree.panels (subs1.getD q dm)
      = (MeshTree.panels base1).map (F1 q))
    (hp2 : ∀ q, q < n → ∀ dm, MeshTree.panels (subs2.getD q dm)
      = (MeshTree.panels base2).map (F2 q))
    (hr : (MeshTree.panels base1).length = r) (hc : (MeshTree.panels base2).length = c)
    (hK : ∀ bi bj, bi < n → bj < n → ∀ x y, K (F1 bi x) (F2 bj y) = K x (F2 (idx bi bj) y))
    (hf : ∀ bi bj si sj, bi < n → bj < n → si < r → sj < c →
      f (bi * r + si) (bj * c + sj)
        = K ((MeshTree.panels base1).getD si default)
            (F2 (idx bi bj) ((MeshTree.panels base2).getD sj default))) :
    DMat.Equal ⟨n * r, n * c, f⟩ (baseMatrix K m1 m2) := by
  have hlen1 : (MeshTree.panels m1).length = n * r := by
    rw [hpanels1, length_flatMap_uniform _ _ r hu1, hsubs1len]
  have hlen2 : (MeshTree.panels m2).length = n * c := by
    rw [hpanels2, length_flatMap_uniform _ _ c hu2, hsubs2len]
  refine ⟨by simp [hlen1], by simp [hlen2], ?_⟩
  intro i hi j hj
  simp only at hi hj
  obtain ⟨hbi, hsi, hidec⟩ := grid_index_decomp n r i hi
  obtain ⟨hbj, hsj, hjdec⟩ := grid_index_decomp n c j hj
  have hrow : (MeshTree.panels m1).getD i default
      = F1 (i / r) ((MeshTree.panels base1).getD (i % r) default) := by
    rw [hpanels1]
    nth_rewrite 1 [hidec]
    rw [getD_flatMap_uniform subs1 _ r hu1 (i / r) (i % r) (by omega) hsi default base1,
      hp1 (i / r) (by omega), List.getD_eq_getElem _ _ (by simpa [hr] using hsi),
      List.getElem_map, List.getD_eq_getElem _ _ (by simpa [hr] using hsi)]
  have hcol : (MeshTree.panels m2).getD j default
      = F2 (j / c) ((MeshTree.panels base2).getD (j % c) default) := by
    rw [hpanels2]
    nth_rewrite 1 [hjdec]
    rw [getD_flatMap_uniform subs2 _ c hu2 (j / c) (j % c) (by omega) hsj default base2,
      hp2 (j / c) (by omega), List.getD_eq_getElem _ _ (by simpa [hc] using hsj),
      List.getElem_map, List.getD_eq_getElem _ _ (by simpa [hc] using hsj)]
  have hfij : f i j = K ((MeshTree.panels base1).getD (i % r) default)
      (F2 (idx (i / r) (j / c)) ((MeshTree.panels base2).getD (j % c) default)) := by
    have h1 := hf (i / r) (j / c) (i % r) (j % c) hbi hbj hsi hsj
    rw [← hidec, ← hjdec] at h1
    exact h1
  have hproj : DMat.entry ⟨n * r, n * c, f⟩ i j = f i j := rfl
  rw [hproj, hfij, baseMatrix_entry, hrow, hcol, hK (i / r) (j / c) hbi hbj]

section CaseHelpers

variable {ρ V : Type} [Inhabited ρ] [Inhabited V]
  {mirrorP : MPlane → ρ → ρ} {translP : Vec3 → ρ → ρ} {rotP : ℚ → ρ → ρ} {K : ρ → ρ → V}

theorem mirror_case_correct (KL : KernelLaws mirrorP translP rotP K)
    (G : GeomLaws mirrorP translP rotP) (p : MPlane) (h1 h2 : MeshTree ρ) (A B : SMatrix V)
    (hA : DMat.Equal A.expand (baseMatrix K h1 h2))
    (hB : DMat.Equal B.expand (baseMatrix K h1 (MeshTree.treeMap (mirrorP p) h2))) :
    DMat.Equal (SMatrix.expand (.blockToeplitz [A, B]))
      (baseMatrix K (.reflNode p h1 (MeshTree.treeMap (mirrorP p) h1))
        (.reflNode p h2 (MeshTree.treeMap (mirrorP p) h2))) := by
  set r := (MeshTree.panels h1).length with hrdef
  set c := (MeshTree.panels h2).length with hcdef
  have hAr : A.expand.rows = r := by rw [hA.1, baseMatrix_rows]
  have hAc : A.expand.cols = c := by rw [hA.2.1, baseMatrix_cols]
  have hBr : B.expand.rows = r := by rw [hB.1, baseMatrix_rows]
  have hBc : B.expand.cols = c := by
    rw [hB.2.1, baseMatrix_cols, MeshTree.length_panels_treeMap]
  have hexp : SMatrix.expand (SMatrix.blockToeplitz [A, B])
      = ⟨2 * r, 2 * c, fun i j =>
          ([A.expand, B.expand].getD (Nat.dist (i / r) (j / c)) default).entry
            (i % r) (j % c)⟩ := by
    simp only [SMatrix.expand, expandList_eq_map, List.map_cons, List.map_nil,
      List.headD_cons, List.length_cons, List.length_nil, hAr, hAc]
  rw [hexp]
  refine block_grid_correct K _ _ h1 h2
    [h1, MeshTree.treeMap (mirrorP p) h1] [h2, MeshTree.treeMap (mirrorP p) h2]
    (fun q x => if q = 0 then x else mirrorP p x) (fun q x => if q = 0 then x else mirrorP p x)
    Nat.dist 2 r c _ (by simp) (by simp) (panels_reflNode _ _ _) (panels_reflNode _ _ _)
    ?_ ?_ ?_ ?_ rfl rfl ?_ ?_
  · intro x hx
    rcases List.mem_cons.mp hx with rfl | hx2
    · rfl
    · rcases List.mem_cons.mp hx2 with rfl | hx3
      · exact MeshTree.length_panels_treeMap _ _
      · simp at hx3
  · intro x hx
    rcases List.mem_cons.mp hx with rfl | hx2
    · rfl
    · rcases List.mem_cons.mp hx2 with rfl | hx3
      · exact MeshTree.length_panels_treeMap _ _
      · simp at hx3
  · intro q hq dm
    rcases (by omega : q = 0 ∨ q = 1) with rfl | rfl
    · simp
    · simp [MeshTree.panels_treeMap]
  · intro q hq dm
    rcases (by omega : q = 0 ∨ q = 1) with rfl | rfl
    · simp
    · simp [MeshTree.panels_treeMap]
  · intro bi bj hbi hbj x y
    rcases (by omega : bi = 0 ∨ bi = 1) with rfl | rfl <;>
      rcases (by omega : bj = 0 ∨ bj = 1) with rfl | rfl
    · simp [Nat.dist]
    · simp [Nat.dist]
    · simp only [Nat.dist]
      norm_num
      rw [mirror_swap KL G]
    · simp only [Nat.dist]
      norm_num
      rw [KL.mirror_inv]
  · intro bi bj si sj hbi hbj hsi hsj
    simp only [mul_add_div_eq r bi si hsi, mul_add_div_eq c bj sj hsj,
      mul_add_mod_eq r bi si hsi, mul_add_mod_eq c bj sj hsj]
    have hd2 : Nat.dist bi bj < 2 := by simp only [Nat.dist]; omega
    rcases (by omega : Nat.dist bi bj = 0 ∨ Nat.dist bi bj = 1) with hd | hd <;> rw [hd]
    · simp only [List.getD_cons_zero, if_pos rfl]
      rw [hA.2.2 si (by rw [hAr]; exact hsi) sj (by rw [hAc]; exact hsj), baseMatrix_entry]
      simp
    · simp only [List.getD_cons_succ, List.getD_cons_zero, if_neg one_ne_zero]
      rw [hB.2.2 si (by rw [hBr]; exact hsi) sj (by rw [hBc]; exact hsj), baseMatrix_entry,
        MeshTree.panels_treeMap]
      congr 1
      rw [List.getD_eq_getElem _ _ (by simpa using hsj), List.getElem_map,
        List.getD_eq_getElem _ _ hsj]

theorem expand_block_entry (subs : List (MeshTree ρ)) (Fb : MeshTree ρ → SMatrix V)
    (s1 : MeshTree ρ)
    (hF : ∀ s ∈ subs, DMat.Equal (Fb s).expand (baseMatrix K s1 s))
    (d : ℕ) (hd : d < subs.length) (si sj : ℕ) (hsi : si < (MeshTree.panels s1).length)
    (dm : MeshTree ρ) (hsj : sj < (MeshTree.panels (subs.getD d dm)).length) :
    (((subs.map Fb).map SMatrix.expand).getD d default).entry si sj
      = K ((MeshTree.panels s1).getD si default)
          ((MeshTree.panels (subs.getD d dm)).getD sj default) := by
  have hd1 : d < ((subs.map Fb).map SMatrix.expand).length := by simpa using hd
  rw [List.getD_eq_getElem _ _ hd1, List.getElem_map, List.getElem_map]
  have hmem : subs[d] ∈ subs := List.getElem_mem _
  have hgd : subs.getD d dm = subs[d] := List.getD_eq_getElem subs dm hd
  obtain ⟨h1, h2, h3⟩ := hF subs[d] hmem
  rw [hgd] at hsj ⊢
  rw [h3 si (by rw [h1, baseMatrix_rows]; exact hsi) sj (by rw [h2, baseMatrix_cols]; exact hsj),
    baseMatrix_entry]

theorem transl_case_correct (KL : KernelLaws mirrorP translP rotP K)
    (G : GeomLaws mirrorP translP rotP) (t : Vec3) (s1 s2 : MeshTree ρ) (k : ℕ)
    (rest1 rest2 : List (MeshTree ρ))
    (hrest1 : rest1 = (List.range' 1 k).map
      (fun i => MeshTree.treeMap (translP (vsmul i t)) s1))
    (hrest2 : rest2 = (List.range' 1 k).map
      (fun i => MeshTree.treeMap (translP (vsmul i t)) s2))
    (Fb : MeshTree ρ → SMatrix V)
    (hF : ∀ s ∈ s2 :: rest2, DMat.Equal (Fb s).expand (baseMatrix K s1 s)) :
    DMat.Equal
      (SMatrix.expand (.blockToeplitz ((s2 :: rest2).map Fb)))
      (baseMatrix K (.translNode t s1 rest1) (.translNode t s2 rest2)) := by
  subst hrest1
  subst hrest2
  set rest1 := (List.range' 1 k).map (fun i => MeshTree.treeMap (translP (vsmul i t)) s1)
    with hrest1
  set rest2 := (List.range' 1 k).map (fun i => MeshTree.treeMap (translP (vsmul i t)) s2)
    with hrest2
  set r := (MeshTree.panels s1).length with hrdef
  set c := (MeshTree.panels s2).length with hcdef
  have hh := hF s2 (List.mem_cons_self _ _)
  have hhr : (Fb s2).expand.rows = r := by rw [hh.1, baseMatrix_rows]
  have hhc : (Fb s2).expand.cols = c := by rw [hh.2.1, baseMatrix_cols]
  have hlen2 : (s2 :: rest2).length = k + 1 := by simp [hrest2]
  have hexp : SMatrix.expand (SMatrix.blockToeplitz ((s2 :: rest2).map Fb))
      = ⟨(k + 1) * r, (k + 1) * c, fun i j =>
          ((((s2 :: rest2).map Fb).map SMatrix.expand).getD (Nat.dist (i / r) (j / c))
            default).entry (i % r) (j % c)⟩ := by
    simp only [SMatrix.expand, expandList_eq_map, List.map_cons, List.headD_cons, hhr, hhc,
      List.length_cons, List.length_map, hlen2]
    simp [hrest2]
  rw [hexp]
  refine block_grid_correct K _ _ s1 s2 (s1 :: rest1) (s2 :: rest2)
    (fun q x => translP (vsmul q t) x) (fun q x => translP (vsmul q t) x)
    Nat.dist (k + 1) r c _ (by simp [hrest1]) (by simp [hrest2])
    (panels_translNode _ _ _) (panels_translNode _ _ _)
    ?_ ?_ ?_ ?_ rfl rfl ?_ ?_
  · exact fun x hx => panels_length_of_range' s1 (fun i => translP (vsmul i t)) k x hx
  · exact fun x hx => panels_length_of_range' s2 (fun i => translP (vsmul i t)) k x hx
  · intro q hq dm
    exact panels_getD_of_range' s1 (fun i => translP (vsmul i t))
      (fun x => by
        show translP (vsmul 0 t) x = x
        rw [vsmul_zero, G.translP_zero]) k q hq dm
  · intro q hq dm
    exact panels_getD_of_range' s2 (fun i => translP (vsmul i t))
      (fun x => by
        show translP (vsmul 0 t) x = x
        rw [vsmul_zero, G.translP_zero]) k q hq dm
  · intro bi bj hbi hbj x y
    exact kernel_transl_dist KL G t bi bj x y
  · intro bi bj si sj hbi hbj hsi hsj
    simp only [mul_add_div_eq r bi si hsi, mul_add_div_eq c bj sj hsj,
      mul_add_mod_eq r bi si hsi, mul_add_mod_eq c bj sj hsj]
    have hd : Nat.dist bi bj < (s2 :: rest2).length := by
      rw [hlen2]
      simp only [Nat.dist]
      omega
    have hpd := panels_getD_of_range' s2 (fun i => translP (vsmul i t))
      (fun x => by
        show translP (vsmul 0 t) x = x
        rw [vsmul_zero, G.translP_zero]) k (Nat.dist bi bj)
      (by rw [← hlen2]; exact hd) s2
    rw [expand_block_entry (s2 :: rest2) Fb s1 hF (Nat.dist bi bj) hd si sj hsi s2
      (by rw [hpd, List.length_map]; exact hsj)]
    congr 1
    rw [hpd, List.getD_eq_getElem _ _ (by simpa using hsj), List.getElem_map,
      List.getD_eq_getElem _ _ hsj]

theorem axial_case_correct (KL : KernelLaws mirrorP translP rotP K)
    (G : GeomLaws mirrorP translP rotP) (pt : Vec3) (s : MeshTree ρ) (k : ℕ) (i0 : ℕ)
    (rest : List (MeshTree ρ))
    (hrest0 : rest = (List.range' 1 k).map
      (fun i : ℕ => MeshTree.treeMap
        (axialTransform translP rotP pt ((i : ℚ) / ((k : ℚ) + 1))) s))
    (Fb : MeshTree ρ → SMatrix V)
    (hF : ∀ x ∈ (s :: rest).take ((k + 1) / 2 + 1),
      DMat.Equal (Fb x).expand (baseMatrix K s x)) :
    DMat.Equal
      (SMatrix.expand (.blockCirculant
        (((s :: rest).take ((k + 1) / 2 + 1)).map Fb) (k + 1)))
      (baseMatrix K (.axialNode i0 pt s rest) (.axialNode i0 pt s rest)) := by
  subst hrest0
  set rest := (List.range' 1 k).map
    (fun i : ℕ => MeshTree.treeMap
      (axialTransform translP rotP pt ((i : ℚ) / ((k : ℚ) + 1))) s) with hrest
  set r := (MeshTree.panels s).length with hrdef
  have hslen : (s :: rest).length = k + 1 := by simp [hrest]
  have hmle : (k + 1) / 2 + 1 ≤ k + 1 := by omega
  have htake : (s :: rest).take ((k + 1) / 2 + 1) = s :: rest.take ((k + 1) / 2) :=
    List.take_succ_cons
  have hsmem : s ∈ (s :: rest).take ((k + 1) / 2 + 1) := by rw [htake]; simp
  have hh := hF s hsmem
  have hhr : (Fb s).expand.rows = r := by rw [hh.1, baseMatrix_rows]
  have hhc : (Fb s).expand.cols = r := by rw [hh.2.1, baseMatrix_cols]
  have htlen : ((s :: rest).take ((k + 1) / 2 + 1)).length = (k + 1) / 2 + 1 := by
    rw [List.length_take, hslen]
    omega
  have hexp : SMatrix.expand (SMatrix.blockCirculant
        (((s :: rest).take ((k + 1) / 2 + 1)).map Fb) (k + 1))
      = ⟨(k + 1) * r, (k + 1) * r, fun i j =>
          (((((s :: rest).take ((k + 1) / 2 + 1)).map Fb).map SMatrix.expand).getD
            (circIndex (k + 1) (i / r) (j / r)) default).entry (i % r) (j % r)⟩ := by
    simp only [SMatrix.expand, expandList_eq_map, htake, List.map_cons, List.headD_cons,
      hhr, hhc]
  rw [hexp]
  have hF0 : ∀ x : ρ, axialTransform translP rotP pt (((0 : ℕ) : ℚ) / ((k : ℚ) + 1)) x = x := by
    intro x
    rw [Nat.cast_zero, zero_div]
    exact axialTransform_zero G pt x
  refine block_grid_correct K _ _ s s (s :: rest) (s :: rest)
    (fun q x => axialTransform translP rotP pt ((q : ℚ) / ((k : ℚ) + 1)) x)
    (fun q x => axialTransform translP rotP pt ((q : ℚ) / ((k : ℚ) + 1)) x)
    (circIndex (k + 1)) (k + 1) r r _ hslen hslen
    (panels_axialNode _ _ _ _) (panels_axialNode _ _ _ _)
    ?_ ?_ ?_ ?_ rfl rfl ?_ ?_
  · exact fun x hx => panels_length_of_range' s
      (fun i => axialTransform translP rotP pt ((i : ℚ) / ((k : ℚ) + 1))) k x hx
  · exact fun x hx => panels_length_of_range' s
      (fun i => axialTransform translP rotP pt ((i : ℚ) / ((k : ℚ) + 1))) k x hx
  · intro q hq dm
    exact panels_getD_of_range' s
      (fun i => axialTransform translP rotP pt ((i : ℚ) / ((k : ℚ) + 1))) hF0 k q hq dm
  · intro q hq dm
    exact panels_getD_of_range' s
      (fun i => axialTransform translP rotP pt ((i : ℚ) / ((k : ℚ) + 1))) hF0 k q hq dm
  · intro bi bj hbi hbj x y
    have hden : ((k : ℚ) + 1) = (((k + 1 : ℕ)) : ℚ) := by push_cast; ring
    simp only [hden]
    have hnpos : 0 < k + 1 := Nat.succ_pos k
    have h1 := kernel_axial_dist KL G pt (k + 1) hnpos bi bj hbi x y
    set d := (bj + (k + 1) - bi) % (k + 1) with hddef
    have hdn : d < k + 1 := Nat.mod_lt _ hnpos
    have hidx : circIndex (k + 1) bi bj = min d ((k + 1) - d) := rfl
    rcases le_or_lt d ((k + 1) - d) with hcase | hcase
    · have : circIndex (k + 1) bi bj = d := by rw [hidx]; omega
      rw [this]
      exact h1
    · have hmin : circIndex (k + 1) bi bj = (k + 1) - d := by rw [hidx]; omega
      rw [hmin]
      rw [h1]
      exact kernel_axial_halfswap KL G pt (k + 1) d (Nat.le_of_lt hdn) x y
  · intro bi bj si sj hbi hbj hsi hsj
    simp only [mul_add_div_eq r bi si hsi, mul_add_div_eq r bj sj hsj,
      mul_add_mod_eq r bi si hsi, mul_add_mod_eq r bj sj hsj]
    set d := circIndex (k + 1) bi bj with hddef
    have hdhalf : d ≤ (k + 1) / 2 := by
      have : d = min ((bj + (k + 1) - bi) % (k + 1))
          ((k + 1) - (bj + (k + 1) - bi) % (k + 1)) := rfl
      have hmod : (bj + (k + 1) - bi) % (k + 1) < k + 1 := Nat.mod_lt _ (Nat.succ_pos k)
      omega
    have hdm : d < ((s :: rest).take ((k + 1) / 2 + 1)).length := by rw [htlen]; omega
    have hdn : d < k + 1 := by omega
    have hgtake : ((s :: rest).take ((k + 1) / 2 + 1)).getD d s = (s :: rest).getD d s := by
      rw [List.getD_eq_getElem _ _ hdm, List.getD_eq_getElem _ _ (by rw [hslen]; omega),
        List.getElem_take]
    have hpd := panels_getD_of_range' s
      (fun i => axialTransform translP rotP pt ((i : ℚ) / ((k : ℚ) + 1))) hF0 k d hdn s
    rw [expand_block_entry ((s :: rest).take ((k + 1) / 2 + 1)) Fb s hF d hdm si sj hsi s
      (by rw [hgtake, hpd, List.length_map]; exact hsj)]
    rw [hgtake]
    congr 1
    rw [hpd, List.getD_eq_getElem _ _ (by simpa using hsj), List.getElem_map,
      List.getD_eq_getElem _ _ hsj]

end CaseHelpers

theorem WF.children {ρ : Type} {mirrorP : MPlane → ρ → ρ} {translP : Vec3 → ρ → ρ}
    {rotP : ℚ → ρ → ρ} {t : MeshTree ρ} (hw : WF mirrorP translP rotP t) :
    ∀ x ∈ MeshTree.submeshesOf t, WF mirrorP translP rotP x := by
  cases hw with
  | leaf ps => simp [MeshTree.submeshesOf]
  | coll subs h => simpa [MeshTree.submeshesOf] using h
  | reflN p h hw1 hw2 =>
      intro x hx
      simp only [MeshTree.submeshesOf, List.mem_cons, List.mem_singleton] at hx
      rcases hx with rfl | rfl | hx
      · exact hw1
      · exact hw2
      · simp at hx
  | translN t0 s rest hws hwr _ =>
      intro x hx
      rcases List.mem_cons.mp hx with rfl | hm
      · exact hws
      · exact hwr x hm
  | axialN i0 pt s rest hws hwr _ =>
      intro x hx
      rcases List.mem_cons.mp hx with rfl | hm
      · exact hws
      · exact hwr x hm

theorem basePair_correct {ρ V : Type} [Inhabited ρ] [Inhabited V] (K1 K2 : ρ → ρ → V)
    (m1 m2 : MeshTree ρ) :
    DMat.Equal (SMatrix.expand (basePair K1 K2 m1 m2).1) (baseMatrix K1 m1 m2)
      ∧ DMat.Equal (SMatrix.expand (basePair K1 K2 m1 m2).2) (baseMatrix K2 m1 m2) :=
  ⟨DMat.Equal.refl _, DMat.Equal.refl _⟩

/-- The assembler is numerically lossless: on structurally well-formed mesh
trees, under the heap and tolerance-tightness conventions and the kernel
invariance and reciprocity preconditions, expanding either structured matrix
returned by `build_matrices_with_symmetries` gives exactly the brute-force
base matrix over all panel pairs. -/
theorem bmws_correct {ρ V : Type} [Inhabited ρ] [Inhabited V]
    {mirrorP : MPlane → ρ → ρ} {translP : Vec3 → ρ → ρ} {rotP : ℚ → ρ → ρ}
    {K1 K2 : ρ → ρ → V} (G : GeomLaws mirrorP translP rotP)
    (KL1 : KernelLaws mirrorP translP rotP K1) (KL2 : KernelLaws mirrorP translP rotP K2) :
    ∀ t1 t2 : MeshTree ρ, WF mirrorP translP rotP t1 → WF mirrorP translP rotP t2 →
      HeapOK t1 t2 → TolExact t1 t2 →
      DMat.Equal (SMatrix.expand (build_matrices_with_symmetries K1 K2 t1 t2).1)
          (baseMatrix K1 t1 t2)
        ∧ DMat.Equal (SMatrix.expand (build_matrices_with_symmetries K1 K2 t1 t2).2)
          (baseMatrix K2 t1 t2) := by
  intro t1
  induction t1 using MeshTree.inductionOn with
  | hleaf ps =>
      intro t2 hw1 hw2 hheap htol
      simp only [build_matrices_with_symmetries]
      exact basePair_correct K1 K2 _ _
  | hcoll subs ih =>
      intro t2 hw1 hw2 hheap htol
      simp only [build_matrices_with_symmetries]
      exact basePair_correct K1 K2 _ _
  | hrefl p1 h1 o1 ihh iho =>
      intro t2 hw1 hw2 hheap htol
      cases t2 with
      | reflNode p2 h2 o2 =>
          simp only [build_matrices_with_symmetries]
          split
          · next hp =>
              subst hp
              cases hw1 with
              | reflN _ _ hwh1 hwo1 =>
                cases hw2 with
                | reflN _ _ hwh2 hwo2 =>
                  have hmem1 : h1 ∈ MeshTree.submeshesOf
                      (MeshTree.reflNode p1 h1 (MeshTree.treeMap (mirrorP p1) h1)) := by
                    simp [MeshTree.submeshesOf]
                  have hmem2a : h2 ∈ MeshTree.submeshesOf
                      (MeshTree.reflNode p1 h2 (MeshTree.treeMap (mirrorP p1) h2)) := by
                    simp [MeshTree.submeshesOf]
                  have hmem2b : MeshTree.treeMap (mirrorP p1) h2 ∈ MeshTree.submeshesOf
                      (MeshTree.reflNode p1 h2 (MeshTree.treeMap (mirrorP p1) h2)) := by
                    simp [MeshTree.submeshesOf]
                  have ihA := ihh h2 hwh1 hwh2 (heapOK_of_children hheap hmem1 hmem2a)
                    (tolExact_of_children htol hmem1 hmem2a)
                  have ihB := ihh (MeshTree.treeMap (mirrorP p1) h2) hwh1 hwo2
                    (heapOK_of_children hheap hmem1 hmem2b) (tolExact_of_children htol hmem1 hmem2b)
                  exact ⟨mirror_case_correct KL1 G p1 h1 h2 _ _ ihA.1 ihB.1,
                         mirror_case_correct KL2 G p1 h1 h2 _ _ ihA.2 ihB.2⟩
          · exact basePair_correct K1 K2 _ _
      | leaf ps => simp only [build_matrices_with_symmetries]; exact basePair_correct K1 K2 _ _
      | coll subs => simp only [build_matrices_with_symmetries]; exact basePair_correct K1 K2 _ _
      | translNode t2v s2 r2 =>
          simp only [build_matrices_with_symmetries]; exact basePair_correct K1 K2 _ _
      | axialNode i2 pt2 s2 r2 =>
          simp only [build_matrices_with_symmetries]; exact basePair_correct K1 K2 _ _
  | htransl t1v s1 r1 ihs ihr =>
      intro t2 hw1 hw2 hheap htol
      cases t2 with
      | translNode t2v s2 r2 =>
          simp only [build_matrices_with_symmetries]
          split
          · next hcond =>
              obtain ⟨hclose, hlens⟩ := hcond
              have hveq : t1v = t2v :=
                htol _ (MeshTree.self_mem_subtreesList _) _
                  (MeshTree.self_mem_subtreesList _) t1v t2v rfl rfl hclose
              subst hveq
              cases hw1 with
              | translN _ _ _ hws1 hwr1 hrest1 =>
                cases hw2 with
                | translN _ _ _ hws2 hwr2 hrest2 =>
                  have hk : r2.length = r1.length := by
                    simp only [List.length_cons] at hlens
                    omega
                  have hrest2k : r2 = (List.range' 1 r1.length).map
                      (fun i => MeshTree.treeMap (translP (vsmul i t1v)) s2) := by
                    rw [hrest2, hk]
                  have hF : ∀ s ∈ s2 :: r2,
                      DMat.Equal (SMatrix.expand
                          (build_matrices_with_symmetries K1 K2 s1 s).1)
                        (baseMatrix K1 s1 s)
                      ∧ DMat.Equal (SMatrix.expand
                          (build_matrices_with_symmetries K1 K2 s1 s).2)
                        (baseMatrix K2 s1 s) := by
                    intro s hs
                    have hmem1 : s1 ∈ MeshTree.submeshesOf
                        (MeshTree.translNode t1v s1 r1) := by
                      simp [MeshTree.submeshesOf]
                    have hmem2 : s ∈ MeshTree.submeshesOf
                        (MeshTree.translNode t1v s2 r2) := by
                      simpa [MeshTree.submeshesOf] using hs
                    have hwfs : WF mirrorP translP rotP s := by
                      rcases List.mem_cons.mp hs with rfl | hm
                      · exact hws2
                      · exact hwr2 s hm
                    exact ihs s hws1 hwfs
                      (heapOK_of_children hheap hmem1 hmem2) (tolExact_of_children htol hmem1 hmem2)
                  constructor
                  · simp only [List.map_map]
                    exact transl_case_correct KL1 G t1v s1 s2 r1.length r1 r2 hrest1 hrest2k
                      (fun s => (build_matrices_with_symmetries K1 K2 s1 s).1)
                      (fun s hs => (hF s hs).1)
                  · simp only [List.map_map]
                    exact transl_case_correct KL2 G t1v s1 s2 r1.length r1 r2 hrest1 hrest2k
                      (fun s => (build_matrices_with_symmetries K1 K2 s1 s).2)
                      (fun s hs => (hF s hs).2)
          · exact basePair_correct K1 K2 _ _
      | leaf ps => simp only [build_matrices_with_symmetries]; exact basePair_correct K1 K2 _ _
      | coll subs => simp only [build_matrices_with_symmetries]; exact basePair_correct K1 K2 _ _
      | reflNode p2 h2 o2 =>
          simp only [build_matrices_with_symmetries]; exact basePair_correct K1 K2 _ _
      | axialNode i2 pt2 s2 r2 =>
          simp only [build_matrices_with_symmetries]; exact basePair_correct K1 K2 _ _
  | haxial i1 pt1 s1 r1 ihs ihr =>
      intro t2 hw1 hw2 hheap htol
      cases t2 with
      | axialNode i2 pt2 s2 r2 =>
          simp only [build_matrices_with_symmetries]
          split
          · next hid =>
              have heq : (MeshTree.axialNode i1 pt1 s1 r1 : MeshTree ρ)
                  = MeshTree.axialNode i2 pt2 s2 r2 := by
                refine hheap _ (MeshTree.self_mem_subtreesList _) _
                  (MeshTree.self_mem_subtreesList _) ?_ ?_
                · simp [MeshTree.identOf]
                · simp [MeshTree.identOf, hid]
              rw [MeshTree.axialNode.injEq] at heq
              obtain ⟨_, hpt, hs, hr⟩ := heq
              subst hpt
              subst hs
              subst hr
              cases hw1 with
              | axialN _ _ _ _ hws1 hwr1 hrest1 =>
                have hF : ∀ s ∈ (s1 :: r1).take ((r1.length + 1) / 2 + 1),
                    DMat.Equal (SMatrix.expand
                        (build_matrices_with_symmetries K1 K2 s1 s).1)
                      (baseMatrix K1 s1 s)
                    ∧ DMat.Equal (SMatrix.expand
                        (build_matrices_with_symmetries K1 K2 s1 s).2)
                      (baseMatrix K2 s1 s) := by
                  intro s hs
                  have hs' : s ∈ s1 :: r1 := List.take_subset _ _ hs
                  have hmem1 : s1 ∈ MeshTree.submeshesOf
                      (MeshTree.axialNode i1 pt1 s1 r1) := by
                    simp [MeshTree.submeshesOf]
                  have hmem2 : s ∈ MeshTree.submeshesOf
                      (MeshTree.axialNode i1 pt1 s1 r1) := by
                    simpa [MeshTree.submeshesOf] using hs'
                  have hwfs : WF mirrorP translP rotP s := by
                    rcases List.mem_cons.mp hs' with rfl | hm
                    · exact hws1
                    · exact hwr1 s hm
                  exact ihs s hws1 hwfs
                    (heapOK_of_children hheap hmem1 hmem2) (tolExact_of_children htol hmem1 hmem2)
                simp only [List.length_cons]
                constructor
                · simp only [List.map_map]
                  exact axial_case_correct KL1 G pt1 s1 r1.length i1 r1 hrest1
                    (fun s => (build_matrices_with_symmetries K1 K2 s1 s).1)
                    (fun s hs => (hF s hs).1)
                · simp only [List.map_map]
                  exact axial_case_correct KL2 G pt1 s1 r1.length i1 r1 hrest1
                    (fun s => (build_matrices_with_symmetries K1 K2 s1 s).2)
                    (fun s hs => (hF s hs).2)
          · exact basePair_correct K1 K2 _ _
      | leaf ps => simp only [build_matrices_with_symmetries]; exact basePair_correct K1 K2 _ _
      | coll subs => simp only [build_matrices_with_symmetries]; exact basePair_correct K1 K2 _ _
      | reflNode p2 h2 o2 =>
          simp only [build_matrices_with_symmetries]; exact basePair_correct K1 K2 _ _
      | translNode t2v s2 r2 =>
          simp only [build_matrices_with_symmetries]; exact basePair_correct K1 K2 _ _

namespace MeshTree

variable {ρ : Type}

theorem treeMap_id : ∀ t : MeshTree ρ, treeMap (fun x => x) t = t := by
  intro t
  induction t using inductionOn with
  | hleaf ps => simp [treeMap]
  | hcoll subs ih =>
      simp only [treeMap, treeMapL_eq_map]
      congr 1
      exact (List.map_congr_left ih).trans (List.map_id _)
  | hrefl p h o ih1 ih2 => simp [treeMap, ih1, ih2]
  | htransl t0 s rest ih1 ih2 =>
      simp only [treeMap, treeMapL_eq_map, ih1]
      congr 1
      exact (List.map_congr_left ih2).trans (List.map_id _)
  | haxial i pt s rest ih1 ih2 =>
      simp only [treeMap, treeMapL_eq_map, ih1]
      congr 1
      exact (List.map_congr_left ih2).trans (List.map_id _)

theorem treeMap_congr (f g : ρ → ρ) (hfg : ∀ x, f x = g x) :
    ∀ t : MeshTree ρ, treeMap f t = treeMap g t := by
  intro t
  induction t using inductionOn with
  | hleaf ps =>
      simp only [treeMap]
      congr 1
      exact List.map_congr_left fun x _ => hfg x
  | hcoll subs ih =>
      simp only [treeMap, treeMapL_eq_map]
      congr 1
      exact List.map_congr_left ih
  | hrefl p h o ih1 ih2 => simp [treeMap, ih1, ih2]
  | htransl t0 s rest ih1 ih2 =>
      simp only [treeMap, treeMapL_eq_map, ih1]
      congr 1
      exact List.map_congr_left ih2
  | haxial i pt s rest ih1 ih2 =>
      simp only [treeMap, treeMapL_eq_map, ih1]
      congr 1
      exact List.map_congr_left ih2

theorem treeMap_comp (f g : ρ → ρ) :
    ∀ t : MeshTree ρ, treeMap f (treeMap g t) = treeMap (fun x => f (g x)) t := by
  intro t
  induction t using inductionOn with
  | hleaf ps => simp [treeMap]
  | hcoll subs ih =>
      simp only [treeMap, treeMapL_eq_map, List.map_map]
      congr 1
      exact List.map_congr_left fun x hx => ih x hx
  | hrefl p h o ih1 ih2 => simp [treeMap, ih1, ih2]
  | htransl t0 s rest ih1 ih2 =>
      simp only [treeMap, treeMapL_eq_map, ih1, List.map_map]
      congr 1
      exact List.map_congr_left fun x hx => ih2 x hx
  | haxial i pt s rest ih1 ih2 =>
      simp only [treeMap, treeMapL_eq_map, ih1, List.map_map]
      congr 1
      exact List.map_congr_left fun x hx => ih2 x hx

end MeshTree

/-- C4: whenever mesh1 and mesh2 are both ReflectionSymmetry sharing the same
plane, the assembler recurses exactly twice — on
`(mesh1.submeshes[0], mesh2.submeshes[0])` and
`(mesh1.submeshes[0], mesh2.submeshes[1])`, never on mesh1's mirrored half
(the result does not depend on `o1`) — and returns
`BlockToeplitz [S_a, S_b]` and `BlockToeplitz [V_a, V_b]`. -/
theorem C4_mirror_dispatch {ρ V : Type} [Inhabited ρ] (K1 K2 : ρ → ρ → V)
    (p : MPlane) (h1 o1 h2 o2 : MeshTree ρ) :
    build_matrices_with_symmetries K1 K2 (.reflNode p h1 o1) (.reflNode p h2 o2) =
      (.blockToeplitz [(build_matrices_with_symmetries K1 K2 h1 h2).1,
                       (build_matrices_with_symmetries K1 K2 h1 o2).1],
       .blockToeplitz [(build_matrices_with_symmetries K1 K2 h1 h2).2,
                       (build_matrices_with_symmetries K1 K2 h1 o2).2]) := by
  rw [bmws_eq_mirror, if_pos rfl]

/-- C3: whenever mesh1 and mesh2 are both TranslationalSymmetry with
translation vectors equal within the floating-point tolerance (`allclose`)
and equal sub-mesh counts, the assembler recurses exactly n times, on
`(mesh1.submeshes[0], s)` for every sub-mesh `s` of mesh2 in mesh2's
sub-mesh order, and returns the pair of BlockToeplitz matrices built from
the n collected S blocks and the n collected V blocks. -/
theorem C3_translation_dispatch {ρ V : Type} [Inhabited ρ] (K1 K2 : ρ → ρ → V)
    (t1 t2 : Vec3) (s1 s2 : MeshTree ρ) (r1 r2 : List (MeshTree ρ))
    (hclose : vecClose t1 t2 = true) (hlen : (s1 :: r1).length = (s2 :: r2).length) :
    build_matrices_with_symmetries K1 K2 (.translNode t1 s1 r1) (.translNode t2 s2 r2) =
      (.blockToeplitz ((s2 :: r2).map
          (fun s => (build_matrices_with_symmetries K1 K2 s1 s).1)),
       .blockToeplitz ((s2 :: r2).map
          (fun s => (build_matrices_with_symmetries K1 K2 s1 s).2)))
    ∧ ((s2 :: r2).map (fun s => (build_matrices_with_symmetries K1 K2 s1 s).1)).length
        = (s2 :: r2).length := by
  constructor
  · rw [bmws_eq_transl, if_pos ⟨hclose, hlen⟩]
    simp only [List.map_map]
    rfl
  · simp

/-- C2: the rotation dispatch case applies exactly when mesh1 is an
AxialSymmetry and mesh2 is the very same object — identity (modelled by the
allocator tag), not value equality.  In the self case it makes exactly
`⌊n/2⌋ + 1` recursive calls pairing `mesh1.submeshes[0]` with each of the
first `⌊n/2⌋ + 1` sub-meshes of mesh2 in order, returning a pair of
BlockCirculant matrices of size n built from those blocks; two distinct but
geometrically equal AxialSymmetry meshes (same data, different tags) never
take this path and fall through to the base evaluator. -/
theorem C2_rotation_dispatch {ρ V : Type} [Inhabited ρ] (K1 K2 : ρ → ρ → V)
    (i1 i2 : ℕ) (pt : Vec3) (s : MeshTree ρ) (rest : List (MeshTree ρ)) :
    (build_matrices_with_symmetries K1 K2 (.axialNode i1 pt s rest) (.axialNode i1 pt s rest)
      = (.blockCirculant (((s :: rest).take ((s :: rest).length / 2 + 1)).map
            (fun x => (build_matrices_with_symmetries K1 K2 s x).1)) (s :: rest).length,
         .blockCirculant (((s :: rest).take ((s :: rest).length / 2 + 1)).map
            (fun x => (build_matrices_with_symmetries K1 K2 s x).2)) (s :: rest).length)
      ∧ (((s :: rest).take ((s :: rest).length / 2 + 1)).map
          (fun x => (build_matrices_with_symmetries K1 K2 s x).1)).length
        = (s :: rest).length / 2 + 1)
    ∧ (i1 ≠ i2 →
        build_matrices_with_symmetries K1 K2 (.axialNode i1 pt s rest) (.axialNode i2 pt s rest)
          = basePair K1 K2 (.axialNode i1 pt s rest) (.axialNode i2 pt s rest)) := by
  refine ⟨⟨?_, ?_⟩, ?_⟩
  · rw [bmws_eq_axial, if_pos rfl]
    simp only [List.map_map]
    rfl
  · rw [List.length_map, List.length_take, List.length_cons]
    omega
  · intro hne
    rw [bmws_eq_axial, if_neg hne]

/-- C5: a pair of meshes matching none of the three symmetric dispatch cases
raises no error: the assembler delegates to the base kernel evaluator and
returns its result unchanged.  In particular: two TranslationalSymmetry
meshes whose translations are not `allclose`, or with different sub-mesh
counts; two ReflectionSymmetry meshes with different planes; two distinct
AxialSymmetry objects. -/
theorem C5_no_match_falls_back {ρ V : Type} [Inhabited ρ] (K1 K2 : ρ → ρ → V)
    (t1 t2 : Vec3) (p1 p2 : MPlane) (i1 i2 : ℕ) (pt1 pt2 : Vec3)
    (s1 s2 h1 o1 h2 o2 : MeshTree ρ) (r1 r2 : List (MeshTree ρ)) :
    (vecClose t1 t2 = false →
      build_matrices_with_symmetries K1 K2 (.translNode t1 s1 r1) (.translNode t2 s2 r2)
        = basePair K1 K2 (.translNode t1 s1 r1) (.translNode t2 s2 r2))
    ∧ ((s1 :: r1).length ≠ (s2 :: r2).length →
      build_matrices_with_symmetries K1 K2 (.translNode t1 s1 r1) (.translNode t2 s2 r2)
        = basePair K1 K2 (.translNode t1 s1 r1) (.translNode t2 s2 r2))
    ∧ (p1 ≠ p2 →
      build_matrices_with_symmetries K1 K2 (.reflNode p1 h1 o1) (.reflNode p2 h2 o2)
        = basePair K1 K2 (.reflNode p1 h1 o1) (.reflNode p2 h2 o2))
    ∧ (i1 ≠ i2 →
      build_matrices_with_symmetries K1 K2 (.axialNode i1 pt1 s1 r1) (.axialNode i2 pt2 s2 r2)
        = basePair K1 K2 (.axialNode i1 pt1 s1 r1) (.axialNode i2 pt2 s2 r2)) := by
  refine ⟨?_, ?_, ?_, ?_⟩
  · intro hfalse
    rw [bmws_eq_transl, if_neg]
    rintro ⟨hc, _⟩
    rw [hfalse] at hc
    exact Bool.false_ne_true hc
  · intro hne
    rw [bmws_eq_transl, if_neg]
    rintro ⟨_, hc⟩
    exact hne hc
  · intro hne
    rw [bmws_eq_mirror, if_neg hne]
  · intro hne
    rw [bmws_eq_axial, if_neg hne]

theorem C3_translation_dispatch_witness :
    vecClose vzero vzero = true ∧
    ((MeshTree.leaf [(1 : ℤ)] :: [MeshTree.leaf [2]]).map
        (fun s => (build_matrices_with_symmetries prodK prodK (.leaf [1]) s).1)).length
      = (MeshTree.leaf [(1 : ℤ)] :: [MeshTree.leaf [2]]).length := by
  have hclose : vecClose vzero vzero = true := by simp [vecClose, approxClose, vzero]
  exact ⟨hclose, (C3_translation_dispatch prodK prodK vzero vzero (.leaf [1]) (.leaf [1])
    [.leaf [2]] [.leaf [2]] hclose rfl).2⟩

theorem C2_rotation_dispatch_witness :
    (0 : ℕ) ≠ 1 ∧
    build_matrices_with_symmetries prodK prodK (.axialNode 0 vzero (.leaf [1]) [.leaf [1]])
        (.axialNode 1 vzero (.leaf [1]) [.leaf [1]])
      = basePair prodK prodK (.axialNode 0 vzero (.leaf [1]) [.leaf [1]])
          (.axialNode 1 vzero (.leaf [1]) [.leaf [1]]) :=
  ⟨by decide, (C2_rotation_dispatch prodK prodK 0 1 vzero (.leaf [1]) [.leaf [1]]).2
    (by decide)⟩

theorem C5_no_match_falls_back_witness :
    vecClose ⟨1, 0, 0⟩ ⟨2, 0, 0⟩ = false ∧
    build_matrices_with_symmetries prodK prodK (.translNode ⟨1, 0, 0⟩ (.leaf [1]) [])
        (.translNode ⟨2, 0, 0⟩ (.leaf [1]) [])
      = basePair prodK prodK (.translNode ⟨1, 0, 0⟩ (.leaf [1]) [])
          (.translNode ⟨2, 0, 0⟩ (.leaf [1]) []) := by
  have hf : vecClose ⟨1, 0, 0⟩ ⟨2, 0, 0⟩ = false := by
    simp [vecClose, approxClose]
    norm_num
  exact ⟨hf, (C5_no_match_falls_back prodK prodK ⟨1, 0, 0⟩ ⟨2, 0, 0⟩ ⟨⟨1, 0, 0⟩, 0⟩
    ⟨⟨1, 0, 0⟩, 0⟩ 0 0 vzero vzero (.leaf [1]) (.leaf [1]) (.leaf [1]) (.leaf [1])
    (.leaf [1]) (.leaf [1]) [] []).1 hf⟩

/-- C1: for every pair of (well-formed) meshes — in particular every pair
recognized by one of the three symmetric dispatch cases — the pair of
structured matrices returned by the assembler, when expanded to dense form,
equals the matrices obtained by calling the base kernel evaluator on every
leaf panel pair directly (brute-force assembly).  Exact equality holds under
the kernel invariance and block-reciprocity preconditions (`KernelLaws`),
the exact-arithmetic reading of the floating-point tolerances (`TolExact`)
and the object-identity heap convention (`HeapOK`): symmetry exploitation
changes only representation, never numerical content. -/
theorem C1_symmetry_equivalence {ρ V : Type} [Inhabited ρ] [Inhabited V]
    {mirrorP : MPlane → ρ → ρ} {translP : Vec3 → ρ → ρ} {rotP : ℚ → ρ → ρ}
    {K1 K2 : ρ → ρ → V} (G : GeomLaws mirrorP translP rotP)
    (KL1 : KernelLaws mirrorP translP rotP K1) (KL2 : KernelLaws mirrorP translP rotP K2)
    (t1 t2 : MeshTree ρ) (hw1 : WF mirrorP translP rotP t1) (hw2 : WF mirrorP translP rotP t2)
    (hheap : HeapOK t1 t2) (htol : TolExact t1 t2) :
    DMat.Equal (SMatrix.expand (build_matrices_with_symmetries K1 K2 t1 t2).1)
        (baseMatrix K1 t1 t2)
      ∧ DMat.Equal (SMatrix.expand (build_matrices_with_symmetries K1 K2 t1 t2).2)
        (baseMatrix K2 t1 t2) :=
  bmws_correct G KL1 KL2 t1 t2 hw1 hw2 hheap htol

theorem C1_symmetry_equivalence_witness :
    GeomLaws negMirror trivTransl trivRot
    ∧ KernelLaws negMirror trivTransl trivRot prodK
    ∧ WF negMirror trivTransl trivRot wAxTree
    ∧ HeapOK wAxTree wAxTree
    ∧ TolExact wAxTree wAxTree
    ∧ DMat.Equal (SMatrix.expand
          (build_matrices_with_symmetries prodK prodK wAxTree wAxTree).1)
        (baseMatrix prodK wAxTree wAxTree) := by
  have G : GeomLaws negMirror trivTransl trivRot := by
    constructor <;> intros <;> simp [negMirror, trivTransl, trivRot]
  have KL : KernelLaws negMirror trivTransl trivRot prodK := by
    constructor <;> intros <;>
      simp [negMirror, trivTransl, trivRot, prodK, axialTransform]
  have hwf : WF negMirror trivTransl trivRot wAxTree := by
    refine WF.axialN 0 vzero (.leaf [1, 2]) [.leaf [1, 2]] (WF.leaf _) ?_ ?_
    · intro x hx
      rcases List.mem_singleton.mp hx with rfl
      exact WF.leaf _
    · rfl
  have hlist : MeshTree.subtreesList wAxTree
      = [wAxTree, MeshTree.leaf [1, 2], MeshTree.leaf [1, 2]] := rfl
  have hheap : HeapOK wAxTree wAxTree := by
    intro s1 hs1 s2 hs2 hsome heq
    rw [hlist] at hs1 hs2
    simp only [List.mem_cons, List.not_mem_nil, or_false] at hs1 hs2
    rcases hs1 with rfl | rfl | rfl <;> rcases hs2 with rfl | rfl | rfl <;>
      simp_all [wAxTree, MeshTree.identOf]
  have htol : TolExact wAxTree wAxTree := by
    intro s1 hs1 s2 hs2 u v hu hv hc
    rw [hlist] at hs1
    simp only [List.mem_cons, List.not_mem_nil, or_false] at hs1
    rcases hs1 with rfl | rfl | rfl <;> simp_all [wAxTree, MeshTree.translVecOf]
  exact ⟨G, KL, hwf, hheap, htol,
    (C1_symmetry_equivalence G KL KL wAxTree wAxTree hwf hwf hheap htol).1⟩

/-- C8: for every slice M, axis point A and integer `n ≥ 1`,
`AxialSymmetry(M, A, n)` has `n + 1` sub-meshes in increasing rotation-angle
order: sub-mesh 0 is M itself, and sub-mesh `i` for `i = 1..n` is a copy of M
translated by `-A`, rotated by the turn fraction `i/(n+1)` (the angle
`i·2π/(n+1)`) about the vertical axis through the origin, then translated
back by `+A`. -/
theorem C8_axial_constructor {ρ : Type} (translP : Vec3 → ρ → ρ) (rotP : ℚ → ρ → ρ)
    (M : MeshTree ρ) (A : Vec3) (n : ℤ) (ident : ℕ) (hn : 1 ≤ n) :
    ∃ m, AxialSymmetry translP rotP M A n ident = some m
      ∧ (MeshTree.submeshesOf m).length = n.toNat + 1
      ∧ (MeshTree.submeshesOf m).getD 0 (.leaf []) = M
      ∧ ∀ i : ℕ, 1 ≤ i → i ≤ n.toNat →
          (MeshTree.submeshesOf m).getD i (.leaf [])
            = MeshTree.treeMap
                (axialTransform translP rotP A ((i : ℚ) / ((n : ℚ) + 1))) M := by
  have hsome : AxialSymmetry translP rotP M A n ident
      = some (.axialNode ident A M ((List.range' 1 n.toNat).map
          (fun i : ℕ => MeshTree.treeMap
            (axialTransform translP rotP A ((i : ℚ) / ((n : ℚ) + 1))) M))) := by
    rw [AxialSymmetry, if_pos hn]
  refine ⟨_, hsome, ?_, rfl, ?_⟩
  · simp [MeshTree.submeshesOf]
  · intro i h1 h2
    obtain ⟨j, rfl⟩ : ∃ j, i = j + 1 := ⟨i - 1, by omega⟩
    simp only [MeshTree.submeshesOf, List.getD_cons_succ]
    rw [getD_map_range' n.toNat _ j (by omega)]
    have hj : 1 + j = j + 1 := by omega
    rw [hj]

theorem C8_axial_constructor_witness :
    (1 : ℤ) ≤ 2 ∧
    ∃ m, AxialSymmetry trivTransl trivRot (MeshTree.leaf [(5 : ℤ)]) vzero 2 7 = some m
      ∧ (MeshTree.submeshesOf m).length = (2 : ℤ).toNat + 1
      ∧ (MeshTree.submeshesOf m).getD 0 (.leaf []) = MeshTree.leaf [(5 : ℤ)]
      ∧ ∀ i : ℕ, 1 ≤ i → i ≤ (2 : ℤ).toNat →
          (MeshTree.submeshesOf m).getD i (.leaf [])
            = MeshTree.treeMap
                (axialTransform trivTransl trivRot vzero ((i : ℚ) / (((2 : ℤ) : ℚ) + 1)))
                (MeshTree.leaf [(5 : ℤ)]) :=
  ⟨by decide, C8_axial_constructor trivTransl trivRot (MeshTree.leaf [(5 : ℤ)]) vzero 2 7
    (by decide)⟩

/-- C9: `AxialSymmetry.from_profile` builds a single revolution slice spanning
the angle `2π/nphi` (turn fraction `1/nphi`) between the profile and its
rotated copy, welds duplicate vertices and repairs degenerate triangles
(abstract collaborator operations), then calls the AxialSymmetry constructor
with `nb_repetitions = nphi - 1`, so the returned body has exactly `nphi`
sub-meshes covering the full circle, each rotated by a turn fraction
`1/nphi` (for `nphi = 4`: 90 degrees) from its predecessor. -/
theorem C9_from_profile {σ : Type} [Inhabited σ] (trPt : Vec3 → σ → σ) (rotPt : ℚ → σ → σ)
    (weld heal : RawMesh σ → RawMesh σ) (profile : List σ) (pt : Vec3) (nphi : ℤ)
    (ident : ℕ)
    (htradd : ∀ u v x, trPt u (trPt v x) = trPt (vadd u v) x)
    (htr0 : ∀ x, trPt vzero x = x)
    (hrotadd : ∀ a b x, rotPt a (rotPt b x) = rotPt (a + b) x)
    (hrot0 : ∀ x, rotPt 0 x = x)
    (hrot1 : ∀ x, rotPt 1 x = x)
    (hnphi : 2 ≤ nphi) :
    ∃ m, AxialSymmetry_from_profile trPt rotPt weld heal profile pt nphi ident = some m
      ∧ (MeshTree.submeshesOf m).length = nphi.toNat
      ∧ (MeshTree.submeshesOf m).getD 0 (.leaf [])
          = rawToLeaf (heal (weld (revolutionSlice rotPt profile nphi)))
      ∧ ∀ i : ℕ, 1 ≤ i → i < nphi.toNat →
          (MeshTree.submeshesOf m).getD i (.leaf [])
            = MeshTree.treeMap
                (axialTransform (fun v => List.map (trPt v)) (fun θ => List.map (rotPt θ))
                  pt (1 / (nphi : ℚ)))
                ((MeshTree.submeshesOf m).getD (i - 1) (.leaf [])) := by
  have G : GeomLaws (fun (_ : MPlane) (l : List σ) => l)
      (fun v => List.map (trPt v)) (fun θ => List.map (rotPt θ)) := by
    constructor
    · intro l
      exact (List.map_congr_left fun x _ => htr0 x).trans (List.map_id _)
    · intro u v l
      rw [List.map_map]
      exact List.map_congr_left fun x _ => htradd u v x
    · intro l
      exact (List.map_congr_left fun x _ => hrot0 x).trans (List.map_id _)
    · intro l
      exact (List.map_congr_left fun x _ => hrot1 x).trans (List.map_id _)
    · intro a b l
      rw [List.map_map]
      exact List.map_congr_left fun x _ => hrotadd a b x
    · intro p l
      rfl
  set slice := rawToLeaf (heal (weld (revolutionSlice rotPt profile nphi))) with hslice
  have hnz : ¬ nphi = 0 := by omega
  have h1n : 1 ≤ nphi - 1 := by omega
  have hden : (((nphi - 1 : ℤ) : ℚ) + 1) = (nphi : ℚ) := by push_cast; ring
  have hsome : AxialSymmetry_from_profile trPt rotPt weld heal profile pt nphi ident
      = some (.axialNode ident pt slice ((List.range' 1 (nphi - 1).toNat).map
          (fun i : ℕ => MeshTree.treeMap
            (axialTransform (fun v => List.map (trPt v)) (fun θ => List.map (rotPt θ)) pt
              ((i : ℚ) / (((nphi - 1 : ℤ) : ℚ) + 1))) slice))) := by
    rw [AxialSymmetry_from_profile, if_neg hnz, AxialSymmetry, if_pos h1n]
  set rest := (List.range' 1 (nphi - 1).toNat).map
    (fun i : ℕ => MeshTree.treeMap
      (axialTransform (fun v => List.map (trPt v)) (fun θ => List.map (rotPt θ)) pt
        ((i : ℚ) / (((nphi - 1 : ℤ) : ℚ) + 1))) slice) with hrest
  have hget : ∀ q : ℕ, q < (nphi - 1).toNat + 1 →
      (MeshTree.submeshesOf (MeshTree.axialNode ident pt slice rest)).getD q (.leaf [])
        = MeshTree.treeMap
            (axialTransform (fun v => List.map (trPt v)) (fun θ => List.map (rotPt θ)) pt
              ((q : ℚ) / (nphi : ℚ))) slice := by
    intro q hq
    cases q with
    | zero =>
        simp only [MeshTree.submeshesOf, List.getD_cons_zero, Nat.cast_zero, zero_div]
        exact ((MeshTree.treeMap_congr _ (fun x => x)
          (fun x => axialTransform_zero G pt x) slice).trans
          (MeshTree.treeMap_id slice)).symm
    | succ j =>
        simp only [MeshTree.submeshesOf, List.getD_cons_succ, hrest]
        rw [getD_map_range' (nphi - 1).toNat _ j (by omega)]
        have hj : 1 + j = j + 1 := by omega
        rw [hj, hden]
  refine ⟨_, hsome, ?_, ?_, ?_⟩
  · simp only [MeshTree.submeshesOf, List.length_cons, hrest, List.length_map,
      List.length_range']
    omega
  · have h0 := hget 0 (by omega)
    rw [h0]
    simp only [Nat.cast_zero, zero_div]
    exact (MeshTree.treeMap_congr _ (fun x => x)
      (fun x => axialTransform_zero G pt x) slice).trans (MeshTree.treeMap_id slice)
  · intro i h1 h2
    have hi1 : i < (nphi - 1).toNat + 1 := by omega
    have hi2 : i - 1 < (nphi - 1).toNat + 1 := by omega
    rw [hget i hi1, hget (i - 1) hi2, MeshTree.treeMap_comp]
    refine MeshTree.treeMap_congr _ _ (fun x => ?_) slice
    rw [axialTransform_add G]
    congr 1
    have hcast : ((i - 1 : ℕ) : ℚ) = (i : ℚ) - 1 := by
      push_cast [h1]
      ring
    rw [div_add_div_same, hcast]
    ring_nf

theorem C9_from_profile_witness :
    (2 : ℤ) ≤ 4 ∧
    ∃ m, AxialSymmetry_from_profile (fun (_ : Vec3) (x : ℤ) => x) (fun (_ : ℚ) (x : ℤ) => x)
        id id [0, 1] vzero 4 0 = some m
      ∧ (MeshTree.submeshesOf m).length = (4 : ℤ).toNat
      ∧ (MeshTree.submeshesOf m).getD 0 (.leaf [])
          = rawToLeaf (id (id (revolutionSlice (fun (_ : ℚ) (x : ℤ) => x) [0, 1] 4)))
      ∧ ∀ i : ℕ, 1 ≤ i → i < (4 : ℤ).toNat →
          (MeshTree.submeshesOf m).getD i (.leaf [])
            = MeshTree.treeMap
                (axialTransform (fun v => List.map ((fun (_ : Vec3) (x : ℤ) => x) v))
                  (fun θ => List.map ((fun (_ : ℚ) (x : ℤ) => x) θ)) vzero (1 / ((4 : ℤ) : ℚ)))
                ((MeshTree.submeshesOf m).getD (i - 1) (.leaf [])) :=
  ⟨by decide, C9_from_profile (fun (_ : Vec3) (x : ℤ) => x) (fun (_ : ℚ) (x : ℤ) => x)
    id id [0, 1] vzero 4 0 (fun _ _ _ => rfl) (fun _ => rfl) (fun _ _ _ => rfl)
    (fun _ => rfl) (fun _ => rfl) (by decide)⟩

/-- C10: every symmetric mesh produced by a constructor of this module has at
least 2 sub-meshes: ReflectionSymmetry always exactly 2;
TranslationalSymmetry and AxialSymmetry have `nb_repetitions + 1 ≥ 2` because
both reject `nb_repetitions < 1`; consequently `AxialSymmetry.from_profile`
fails for every `nphi < 2` (it passes `nb_repetitions = nphi - 1`). -/
theorem C10_at_least_two_submeshes {ρ σ : Type} [Inhabited σ]
    (mirrorP : MPlane → ρ → ρ) (translP : Vec3 → ρ → ρ) (rotP : ℚ → ρ → ρ)
    (trPt : Vec3 → σ → σ) (rotPt : ℚ → σ → σ) (weld heal : RawMesh σ → RawMesh σ) :
    (∀ (plane : MPlane) (half m : MeshTree ρ),
      ReflectionSymmetry mirrorP plane half = some m → (MeshTree.submeshesOf m).length = 2)
    ∧ (∀ (slice : MeshTree ρ) (t : Vec3) (n : ℤ) (m : MeshTree ρ),
        TranslationalSymmetry translP slice t n = some m →
          1 ≤ n ∧ (MeshTree.submeshesOf m).length = n.toNat + 1
            ∧ 2 ≤ (MeshTree.submeshesOf m).length)
    ∧ (∀ (slice : MeshTree ρ) (pt : Vec3) (n : ℤ) (ident : ℕ) (m : MeshTree ρ),
        AxialSymmetry translP rotP slice pt n ident = some m →
          1 ≤ n ∧ (MeshTree.submeshesOf m).length = n.toNat + 1
            ∧ 2 ≤ (MeshTree.submeshesOf m).length)
    ∧ (∀ (profile : List σ) (pt : Vec3) (nphi : ℤ) (ident : ℕ), nphi < 2 →
        AxialSymmetry_from_profile trPt rotPt weld heal profile pt nphi ident = none) := by
  refine ⟨?_, ?_, ?_, ?_⟩
  · intro plane half m hm
    rw [ReflectionSymmetry] at hm
    split at hm
    · cases hm
      rfl
    · cases hm
  · intro slice t n m hm
    rw [TranslationalSymmetry] at hm
    split at hm
    · next hcond =>
        cases hm
        refine ⟨hcond.1, ?_, ?_⟩
        · simp only [MeshTree.submeshesOf, List.length_cons, List.length_map,
            List.length_range']
        · simp only [MeshTree.submeshesOf, List.length_cons, List.length_map,
            List.length_range']
          omega
    · cases hm
  · intro slice pt n ident m hm
    rw [AxialSymmetry] at hm
    split at hm
    · next hcond =>
        cases hm
        refine ⟨hcond, ?_, ?_⟩
        · simp only [MeshTree.submeshesOf, List.length_cons, List.length_map,
            List.length_range']
        · simp only [MeshTree.submeshesOf, List.length_cons, List.length_map,
            List.length_range']
          omega
    · cases hm
  · intro profile pt nphi ident hlt
    rw [AxialSymmetry_from_profile]
    split
    · rfl
    · next hnz =>
        rw [AxialSymmetry, if_neg]
        omega

theorem C10_at_least_two_submeshes_witness :
    (∃ m, ReflectionSymmetry negMirror ⟨⟨1, 0, 0⟩, 0⟩ (MeshTree.leaf [(1 : ℤ)]) = some m
      ∧ (MeshTree.submeshesOf m).length = 2)
    ∧ (1 : ℤ) < 2
    ∧ AxialSymmetry_from_profile (fun (_ : Vec3) (x : ℤ) => x) (fun (_ : ℚ) (x : ℤ) => x)
        id id [0] vzero 1 0 = none := by
  have hsome : ReflectionSymmetry negMirror ⟨⟨1, 0, 0⟩, 0⟩ (MeshTree.leaf [(1 : ℤ)])
      = some (.reflNode ⟨⟨1, 0, 0⟩, 0⟩ (.leaf [1])
          (MeshTree.treeMap (negMirror ⟨⟨1, 0, 0⟩, 0⟩) (.leaf [1]))) := by
    rw [ReflectionSymmetry, if_pos rfl]
  refine ⟨⟨_, hsome, ?_⟩, by decide, ?_⟩
  · exact (C10_at_least_two_submeshes negMirror trivTransl trivRot
      (fun (_ : Vec3) (x : ℤ) => x) (fun (_ : ℚ) (x : ℤ) => x) id id).1 _ _ _ hsome
  · exact (C10_at_least_two_submeshes negMirror trivTransl trivRot
      (fun (_ : Vec3) (x : ℤ) => x) (fun (_ : ℚ) (x : ℤ) => x) id id).2.2.2 [0] vzero 1 0
      (by decide)

/-- C6 counterexample: the claim says `from_profile` rejects every profile
array whose shape is not `(N, 3)` with `N ≥ 2`; but the source only asserts
`len(shape) == 2` and `shape[1] == 3`, so the shape `(1, 3)` — which the
claim covers, since `1 < 2` — passes the shape assertions. -/
theorem C6_counterexample :
    ¬ (∀ s : List ℕ, (¬ ∃ N, s = [N, 3] ∧ 2 ≤ N) → profileShapeOK s = false) := by
  intro h
  have h13 := h [1, 3] ?_
  · exact absurd h13 (by decide)
  · rintro ⟨N, hN, h2⟩
    have hN1 : N = 1 := by
      have := List.cons.injEq 1 [3] N [3]
      rw [this] at hN
      exact hN.1.symm
    omega

/-- C6 (amended): each symmetric-mesh constructor raises exactly when a
precondition fails: ReflectionSymmetry for a mirror plane whose normal has a
non-zero z component, TranslationalSymmetry for a translation vector with a
non-zero z component or a non-positive repetition count, AxialSymmetry for a
non-positive repetition count, and the shape assertions of
`AxialSymmetry.from_profile` fail exactly for a profile array not of shape
`(N, 3)` (with no lower bound on N). -/
theorem C6_construction_preconditions {ρ : Type}
    (mirrorP : MPlane → ρ → ρ) (translP : Vec3 → ρ → ρ) (rotP : ℚ → ρ → ρ) :
    (∀ (plane : MPlane) (half : MeshTree ρ),
      ReflectionSymmetry mirrorP plane half = none ↔ plane.normal.z ≠ 0)
    ∧ (∀ (slice : MeshTree ρ) (t : Vec3) (n : ℤ),
      TranslationalSymmetry translP slice t n = none ↔ (t.z ≠ 0 ∨ n ≤ 0))
    ∧ (∀ (slice : MeshTree ρ) (pt : Vec3) (n : ℤ) (ident : ℕ),
      AxialSymmetry translP rotP slice pt n ident = none ↔ n ≤ 0)
    ∧ (∀ shape : List ℕ, profileShapeOK shape = false ↔ ¬ ∃ N, shape = [N, 3]) := by
  refine ⟨?_, ?_, ?_, ?_⟩
  · intro plane half
    rw [ReflectionSymmetry]
    split
    · next hc => simp [hc]
    · next hc => simp [hc]
  · intro slice t n
    rw [TranslationalSymmetry]
    split
    · next hc =>
        simp only [reduceCtorEq, false_iff]
        push_neg
        exact ⟨hc.2, by omega⟩
    · next hc =>
        simp only [true_iff]
        rcases Decidable.not_and_iff_or_not.mp hc with hn | hz
        · right
          omega
        · left
          exact hz
  · intro slice pt n ident
    rw [AxialSymmetry]
    split
    · next hc =>
        simp only [reduceCtorEq, false_iff]
        omega
    · next hc =>
        simp only [true_iff]
        omega
  · intro shape
    match shape with
    | [] => simp [profileShapeOK]
    | [a] => simp [profileShapeOK]
    | [a, b] =>
        constructor
        · intro hfalse ⟨N, hN⟩
          have : a = N ∧ b = 3 := by
            rw [List.cons.injEq, List.cons.injEq] at hN
            exact ⟨hN.1, hN.2.1⟩
          rw [this.2] at hfalse
          simp [profileShapeOK] at hfalse
        · intro hno
          by_contra htrue
          rw [Bool.not_eq_false, profileShapeOK] at htrue
          simp only [List.length_cons, List.length_nil, List.getD_cons_succ,
            List.getD_cons_zero, Bool.and_eq_true, beq_iff_eq] at htrue
          exact hno ⟨a, by rw [htrue.2]⟩
    | a :: b :: c :: tl =>
        constructor
        · intro _ ⟨N, hN⟩
          rw [List.cons.injEq, List.cons.injEq] at hN
          have := hN.2.2
          simp at this
        · intro _
          simp [profileShapeOK]

/-- C7: evaluating the code at the failing input.  Two TranslationalSymmetry
inputs sharing the zero translation and repetition count 1 (2 sub-meshes
each) are joined; the claim and spec require the result to keep repetition
count 1 (2 sub-meshes), but the source passes `len(meshes[0].submeshes)` —
that is `nb_repetitions + 1` — as the new `nb_repetitions`, so the result
has 3 sub-meshes. -/
theorem C7_join_extra_repetition :
    ∃ m, TranslationalSymmetry_join trivTransl
        [MeshTree.translNode vzero (.leaf [(1 : ℤ)]) [.leaf [1]],
         MeshTree.translNode vzero (.leaf [2]) [.leaf [2]]] = some m
      ∧ (MeshTree.submeshesOf
          (MeshTree.translNode vzero (MeshTree.leaf [(1 : ℤ)]) [.leaf [1]])).length = 2
      ∧ (MeshTree.submeshesOf m).length = 3 := by
  have hguard : ([MeshTree.translNode vzero (MeshTree.leaf [(2 : ℤ)]) [.leaf [2]]].all
      (joinCompatible vzero (MeshTree.leaf [(1 : ℤ)] :: [MeshTree.leaf [1]]).length))
        = true := by
    simp [joinCompatible, vecClose, approxClose, vzero]
  have hjoin : TranslationalSymmetry_join trivTransl
      [MeshTree.translNode vzero (.leaf [(1 : ℤ)]) [.leaf [1]],
       MeshTree.translNode vzero (.leaf [2]) [.leaf [2]]]
      = TranslationalSymmetry trivTransl
          (List.foldl (fun acc m => meshAdd acc
              (mergeMesh ((MeshTree.submeshesOf m).headD (.leaf []))))
            (mergeMesh (.leaf [(1 : ℤ)]))
            [MeshTree.translNode vzero (.leaf [2]) [.leaf [2]]])
          vzero ((MeshTree.leaf [(1 : ℤ)] :: [MeshTree.leaf [1]]).length : ℤ) := by
    rw [TranslationalSymmetry_join, if_pos hguard]
  rw [hjoin, TranslationalSymmetry, if_pos (by constructor <;> simp [vzero])]
  refine ⟨_, rfl, rfl, ?_⟩
  simp [MeshTree.submeshesOf]
